import Mathlib

/-!
# The classification cache of zypper-docker (backend/cache.go, backend/backend.go)

A shallow embedding of the cache of inspected images and of the functions that
read, merge and write it.

Modelling decisions, all taken from the Go source:

* A Go string is a Lean string (a sequence of Unicode characters), which the
  JSON encoder writes and the decoder reads back unchanged.
* A Go slice of strings is a list. A nil slice and an empty slice are both
  the empty list: append, range, len and the membership test treat them alike.
* A Go map from strings to slices is an association list of key and value
  pairs, or none for the nil map. Reading a nil map gives the zero value;
  assigning into a nil map is a run-time panic. A range statement over a map
  visits the keys in an order the language leaves unspecified, so every
  function that ranges over a map takes the visiting order as an argument.
* A run-time panic is a value of Fault and the functions that can panic return
  in Except Fault.
* The cache file is modelled by what the JSON decoder makes of its bytes
  (Content), and the file system by the state of each path (PathState).
* checkCommandInImage (running a detection command in a container) and
  getImageID (asking the Docker daemon) are outside the repository cache code
  and are arguments of the functions that call them.
-/

namespace Backend

/-! ## Go values -/

/-- Run-time panics the cache code can raise. -/
inductive Fault where
  | nilMapAssign
  | nilPointer
  deriving DecidableEq, Repr

/-- Entries of an allocated Go map of type map[string][]string. -/
abbrev IDMap := List (String × List String)

/-- Keys of an allocated map, in the order of the entries. -/
def entryKeys (m : IDMap) : List String := m.map Prod.fst

/-- Reading m[k]: the value stored under k, the zero value when k is absent. -/
def entryGet : IDMap → String → List String
  | [], _ => []
  | (k', v) :: rest, k => if k' = k then v else entryGet rest k

/-- Assignment m[k] = v on an allocated map: replaces the value of an existing
key, adds the key otherwise. -/
def entrySet : IDMap → String → List String → IDMap
  | [], k, v => [(k, v)]
  | (k', v') :: rest, k, v =>
    if k' = k then (k', v) :: rest else (k', v') :: entrySet rest k v

/-- Modelled from the spec: utils.ArrayIncludeString is not among the sources;
it reports whether the identifier occurs in the slice. -/
def ArrayIncludeString (ids : List String) (id : String) : Bool :=
  ids.contains id

/-- Modelled from the spec: utils.RemoveDuplicates is not among the sources;
the spec asks that merged entries are deduplicated, so the result has the
identifiers of the argument, each once. The spec leaves their order open; a
function has to return them in some order, and this one keeps each at the
place of its first occurrence. The theorems below use only the two facts the
spec gives (mem_RemoveDuplicates and nodup_RemoveDuplicates), never the
order. -/
def RemoveDuplicates : List String → List String
  | [] => []
  | x :: rest => x :: (RemoveDuplicates rest).filter (fun y => decide (y ≠ x))

/-! ## drivers/drivers.go -/

/-- The slice drivers.Available. -/
def Available : List String := ["apt", "zypper", "dnf"]

/-- The keys of the map drivers.AvailableDrivers, as written in the source. -/
def AvailableDrivers : List String := ["apt", "dnf", "zypper"]

/-! ## backend/cache.go: data -/

/-- The constant cacheName. -/
def cacheName : String := "zypper-docker.json"

/-- The constant otherKey. -/
def otherKey : String := "others"

/-- The struct cachedData. IDs is none for the nil map. -/
structure cachedData where
  Path : String
  IDs : Option IDMap
  Outdated : List String
  Valid : Bool
  deriving DecidableEq, Repr

/-- Reading cd.IDs[k]; a nil map reads as the zero value. -/
def cachedData.getIDs (cd : cachedData) (k : String) : List String :=
  match cd.IDs with
  | none => []
  | some m => entryGet m k

/-- The assignment cd.IDs[k] = v; panics on a nil map. -/
def cachedData.setIDs (cd : cachedData) (k : String) (v : List String) :
    Except Fault cachedData :=
  match cd.IDs with
  | none => .error Fault.nilMapAssign
  | some m => .ok { cd with IDs := some (entrySet m k v) }

/-- Keys of cd.IDs; a nil map has none. -/
def cachedData.keys (cd : cachedData) : List String :=
  match cd.IDs with
  | none => []
  | some m => entryKeys m

/-! ## The cache file -/

/-- A field of the JSON object in the cache file, as the decoder sees it. -/
inductive Field (α : Type) where
  | absent
  | null
  | value (a : α)
  deriving DecidableEq, Repr

/-- The bytes of a cache file, up to what json.Decoder.Decode makes of them:
no value before the end of the file (io.EOF), a decoding error, the JSON
value null, or an object with the fields ids and outdated (other fields are
ignored by the decoder). -/
inductive Content where
  | eof
  | malformed
  | null
  | object (ids : Field IDMap) (outdated : List String)
  deriving DecidableEq, Repr

/-- What a path of the file system is to this process: it can neither be
opened nor created, it does not exist but can be created, or it is a file
that can be opened for reading and writing. -/
inductive PathState where
  | denied
  | missing
  | file (c : Content)
  deriving DecidableEq, Repr

/-- The file system: the state of every path. -/
abbrev FS := String → PathState

/-- The bytes enc.Encode(cd) writes: the fields ids and outdated (Path and
Valid carry the json tag "-"); a nil map is written as null. -/
def encode (cd : cachedData) : Content :=
  .object (match cd.IDs with
    | none => .null
    | some m => .value m) cd.Outdated

/-! ## backend/cache.go: functions -/

/-- The loop of cachedData.idExists over the keys of cd.IDs, in the order
visit in which the range statement yields them. -/
def cachedData.idExists (visit : List String) (cd : cachedData) (id : String) :
    Bool × String :=
  match visit with
  | [] => (false, "")
  | key :: rest =>
    if ArrayIncludeString (cd.getIDs key) id then (true, key)
    else cachedData.idExists rest cd id

/-- The method cachedData.isImageOutdated. -/
def cachedData.isImageOutdated (cd : cachedData) (id : String) : Bool :=
  ArrayIncludeString cd.Outdated id

/-- Outcome of cachedData.isSupported: the two returned values, the backends
whose probe was run (in order), and the store afterwards. -/
structure Resolution where
  supported : Bool
  driver : String
  probes : List String
  cd : cachedData
  deriving DecidableEq, Repr

/-- The loop of cachedData.isSupported over drivers.AvailableDrivers, visited
in the order drivers; probed collects the backends probed so far. The
statement after the loop records the identifier under otherKey. -/
def probeLoop (probe : String → String → Bool) (cd : cachedData) (id : String) :
    List String → List String → Except Fault Resolution
  | [], probed =>
    match cd.setIDs otherKey (cd.getIDs otherKey ++ [id]) with
    | .error e => .error e
    | .ok cd1 => .ok ⟨false, "", probed, cd1⟩
  | k :: rest, probed =>
    if probe id k then
      match cd.setIDs k (cd.getIDs k ++ [id]) with
      | .error e => .error e
      | .ok cd1 => .ok ⟨true, k, probed ++ [k], cd1⟩
    else probeLoop probe cd id rest (probed ++ [k])

/-- The method cachedData.isSupported. visitIDs is the order in which the
range over cd.IDs yields its keys, visitDrivers the order in which the range
over drivers.AvailableDrivers yields the backends, and probe id k the outcome
of checkCommandInImage(id, AvailableDrivers[k].Available()). -/
def cachedData.isSupported (visitIDs visitDrivers : List String)
    (probe : String → String → Bool) (cd : cachedData) (id : String) :
    Except Fault Resolution :=
  if cd.Valid && (cd.idExists visitIDs id).1 then
    .ok ⟨(cd.idExists visitIDs id).2 != otherKey, (cd.idExists visitIDs id).2, [], cd⟩
  else if cd.Valid then
    probeLoop probe cd id visitDrivers []
  else
    .ok ⟨false, "", [], cd⟩

/-- The method cachedData.readCache on a reader with the given content. The
result is none when the decoder set the pointer to nil (JSON null). -/
def cachedData.readCache (cd : cachedData) (r : Content) : Option cachedData :=
  match r with
  | .eof => some { Valid := true, Path := cd.Path, IDs := none, Outdated := [] }
  | .malformed => some { Valid := true, Path := cd.Path, IDs := none, Outdated := [] }
  | .null => none
  | .object ids outdated =>
    some { Valid := true, Path := cd.Path,
           IDs := (match ids with
             | .absent => none
             | .null => none
             | .value m => some m),
           Outdated := outdated }

/-- One round of the merge loop of flush: the two assignments to
cd.IDs[driver]. -/
def mergeBucket (oldCache cd : cachedData) (driver : String) : Except Fault cachedData :=
  match cd.setIDs driver (cd.getIDs driver ++ oldCache.getIDs driver) with
  | .error e => .error e
  | .ok cd1 => cd1.setIDs driver (RemoveDuplicates (cd1.getIDs driver))

/-- The merge loop of flush over a list of backend names. -/
def mergeBuckets (oldCache : cachedData) : cachedData → List String → Except Fault cachedData
  | cd, [] => .ok cd
  | cd, driver :: rest =>
    match mergeBucket oldCache cd driver with
    | .error e => .error e
    | .ok cd1 => mergeBuckets oldCache cd1 rest

/-- The merge of flush (lines 122 to 130): the buckets of drivers.Available,
the bucket otherKey and the outdated list. -/
def mergeCache (oldCache cd : cachedData) : Except Fault cachedData :=
  match mergeBuckets oldCache cd Available with
  | .error e => .error e
  | .ok cd1 =>
    match mergeBucket oldCache cd1 otherKey with
    | .error e => .error e
    | .ok cd2 =>
      .ok { cd2 with Outdated := RemoveDuplicates (cd2.Outdated ++ oldCache.Outdated) }

/-- The method cachedData.flush: the store afterwards and the file system
afterwards. Nothing happens for an invalid store or when the file cannot be
locked (it is missing or cannot be opened; a file that was opened can be
examined with Stat). The file is written only after the merge, so a panic
during the merge leaves it as it was. -/
def cachedData.flush (cd : cachedData) (fs : FS) : Except Fault (cachedData × FS) :=
  if cd.Valid then
    match fs cd.Path with
    | .denied => .ok (cd, fs)
    | .missing => .ok (cd, fs)
    | .file c =>
      match cd.readCache c with
      | none => .error Fault.nilPointer
      | some oldCache =>
        match mergeCache oldCache cd with
        | .error e => .error e
        | .ok cd1 => .ok (cd1, Function.update fs cd.Path (.file (encode cd1)))
  else .ok (cd, fs)

/-- The method cachedData.reset. -/
def cachedData.reset (cd : cachedData) (fs : FS) : Except Fault (cachedData × FS) :=
  cachedData.flush { cd with IDs := some [], Outdated := [] } fs

/-- The first if statement of updateCacheAfterUpdate: the identifier of the
outdated image is appended to the outdated list and the store flushed, unless
the list has it already. -/
def cachedData.recordOutdated (cd : cachedData) (fs : FS) (outdatedImgID : String) :
    Except Fault (cachedData × FS) :=
  if ArrayIncludeString cd.Outdated outdatedImgID then .ok (cd, fs)
  else cachedData.flush { cd with Outdated := cd.Outdated ++ [outdatedImgID] } fs

/-- The second if statement of updateCacheAfterUpdate: the identifier of the
new image is appended to the bucket of the backend and the store flushed,
unless that bucket has it already. -/
def cachedData.recordUpdated (cd : cachedData) (fs : FS) (updatedImgID backend : String) :
    Except Fault (cachedData × FS) :=
  if ArrayIncludeString (cd.getIDs backend) updatedImgID then .ok (cd, fs)
  else
    match cd.setIDs backend (cd.getIDs backend ++ [updatedImgID]) with
    | .error e => .error e
    | .ok cd1 => cachedData.flush cd1 fs

/-- The method cachedData.updateCacheAfterUpdate. getImageID is the lookup of
an image identifier (none when it fails). The first component of the result
tells whether an error was returned. -/
def cachedData.updateCacheAfterUpdate (getImageID : String → Option String)
    (cd : cachedData) (fs : FS) (outdatedImg updatedImgID backend : String) :
    Except Fault (Bool × cachedData × FS) :=
  match getImageID outdatedImg with
  | none => .ok (true, cd, fs)
  | some outdatedImgID =>
    match cd.recordOutdated fs outdatedImgID with
    | .error e => .error e
    | .ok (cd1, fs1) =>
      match cd1.recordUpdated fs1 updatedImgID backend with
      | .error e => .error e
      | .ok (cd2, fs2) => .ok (false, cd2, fs2)

/-- The function cachePath. names are the file names the two loops build, in
order (the cache file name joined to each directory of the candidates). The
first one that can be opened or created is returned with its content; a
missing file is created empty. -/
def cachePath (names : List String) (fs : FS) : Option (String × Content) × FS :=
  match names with
  | [] => (none, fs)
  | name :: rest =>
    match fs name with
    | .denied => cachePath rest fs
    | .missing => (some (name, .eof), Function.update fs name (.file .eof))
    | .file c => (some (name, c), fs)

/-- The function getCacheFile. The returned pointer is none when the decoder
set it to nil (JSON null in the file). -/
def getCacheFile (names : List String) (fs : FS) : Option cachedData × FS :=
  match cachePath names fs with
  | (none, fs1) => (some { Valid := false, Path := "", IDs := none, Outdated := [] }, fs1)
  | (some (name, c), fs1) =>
    match c with
    | .eof => (some { Valid := true, IDs := some [], Path := name, Outdated := [] }, fs1)
    | .malformed => (some { Valid := true, Path := name, IDs := none, Outdated := [] }, fs1)
    | .null => (none, fs1)
    | .object ids outdated =>
      (some { Valid := true, Path := name,
              IDs := (match ids with
                | .absent => some []
                | .null => none
                | .value m => some m),
              Outdated := outdated }, fs1)

/-! ## backend/backend.go -/

/-- The function isSupported of backend.go: the returned value and the file
system afterwards. -/
def isSupported (names : List String) (visitIDs visitDrivers : List String)
    (probe : String → String → Bool) (fs : FS) (id : String) : Except Fault (Bool × FS) :=
  match getCacheFile names fs with
  | (none, _) => .error Fault.nilPointer
  | (some cd, fs1) =>
    match cd.isSupported visitIDs visitDrivers probe id with
    | .error e => .error e
    | .ok r => .ok (r.supported, fs1)

/-- The function CurrentDriverWithID: the name of the driver returned and the
file system afterwards. -/
def CurrentDriverWithID (names : List String) (visitIDs visitDrivers : List String)
    (probe : String → String → Bool) (fs : FS) (id : String) : Except Fault (String × FS) :=
  match getCacheFile names fs with
  | (none, _) => .error Fault.nilPointer
  | (some cd, fs1) =>
    match cd.isSupported visitIDs visitDrivers probe id with
    | .error e => .error e
    | .ok r =>
      if r.supported then
        (if AvailableDrivers.contains r.driver then .ok (r.driver, fs1) else .ok ("zypper", fs1))
      else .ok ("zypper", fs1)

/-! ## Auxiliary definitions for the statements -/

/-- The bucket names flush merges: drivers.Available and then otherKey. -/
def registered : List String := Available ++ [otherKey]

/-- The entries after the merge loop of flush has run over the names ks. -/
def mergeEntries (oldCache : cachedData) : IDMap → List String → IDMap
  | m, [] => m
  | m, k :: rest =>
    mergeEntries oldCache
      (entrySet m k (RemoveDuplicates (entryGet m k ++ oldCache.getIDs k))) rest

/-- The store flush computes from the in-memory entries m and the store read
from the file. -/
def merged (oldCache cd : cachedData) (m : IDMap) : cachedData :=
  { cd with IDs := some (mergeEntries oldCache m registered),
            Outdated := RemoveDuplicates (cd.Outdated ++ oldCache.Outdated) }

/-- The identifiers a file content holds under the bucket k of ids. -/
def Content.bucket : Content → String → List String
  | .object (.value m) _, k => entryGet m k
  | _, _ => []

/-- The identifiers a file content holds in its outdated list. -/
def Content.outdatedIDs : Content → List String
  | .object _ outdated => outdated
  | _ => []

/-- The identifiers the file at a path holds under the bucket k. -/
def fileBucket (fs : FS) (path k : String) : List String :=
  match fs path with
  | .file c => c.bucket k
  | _ => []

/-- The identifiers the file at a path holds in its outdated list. -/
def fileOutdated (fs : FS) (path : String) : List String :=
  match fs path with
  | .file c => c.outdatedIDs
  | _ => []

/-- The identifier x is recorded under the bucket k, in the in-memory store or
in its backing file. -/
def recorded (cd : cachedData) (fs : FS) (k x : String) : Prop :=
  x ∈ cd.getIDs k ∨ x ∈ fileBucket fs cd.Path k

/-- The single-bucket invariant on an in-memory store: no identifier is in two
buckets of ids. -/
def SingleBucket (cd : cachedData) : Prop :=
  ∀ x k1 k2, x ∈ cd.getIDs k1 → x ∈ cd.getIDs k2 → k1 = k2

/-- The single-bucket invariant on the file at a path. -/
def FileSingleBucket (fs : FS) (path : String) : Prop :=
  ∀ x k1 k2, x ∈ fileBucket fs path k1 → x ∈ fileBucket fs path k2 → k1 = k2

/-- The single-bucket invariant on the in-memory store and its backing file
taken together: no identifier is under one bucket in one of them and under
another bucket in the other. -/
def JointSingleBucket (cd : cachedData) (fs : FS) : Prop :=
  ∀ x k1 k2, recorded cd fs k1 x → recorded cd fs k2 x → k1 = k2

/-- Two stores write back one after the other: the first store is flushed,
then the second; the result is the file system afterwards. -/
def flushThen (first second : cachedData) (fs : FS) : Except Fault FS :=
  match first.flush fs with
  | .error e => .error e
  | .ok (_, fs1) =>
    match second.flush fs1 with
    | .error e => .error e
    | .ok (_, fs2) => .ok fs2

/-- The same store is flushed twice in a row: the second flush is called on
the store and the file system the first flush left. -/
def flushTwice (cd : cachedData) (fs : FS) : Except Fault (cachedData × FS) :=
  match cd.flush fs with
  | .error e => .error e
  | .ok (cd1, fs1) => cd1.flush fs1

/-! ## Concrete stores and files used in the examples -/

/-- A file system whose only file is at path and has content c. -/
def oneFile (path : String) (c : Content) : FS :=
  fun p => if p = path then .file c else .missing

/-- A valid store with an empty, allocated map. -/
def emptyStore : cachedData := ⟨"/cache", some [], [], true⟩

/-- A file holding one identifier under a bucket no driver is registered for. -/
def pacmanFile : FS := oneFile "/cache" (.object (.value [("pacman", ["x"])]) [])

/-- The in-memory store of the scenario of the spec: zypper holds a and c. -/
def scenarioStore : cachedData := ⟨"/cache", some [("zypper", ["a", "c"])], [], true⟩

/-- The file of the scenario of the spec, as the concurrent process left it. -/
def scenarioFile : FS :=
  oneFile "/cache" (.object (.value [("zypper", ["a"]), ("dnf", ["b"])]) ["a"])

/-- A file system whose cache file does not decode. -/
def malformedFile : FS := oneFile "/cache" .malformed

/-- A file system whose cache file is empty. -/
def emptyFile : FS := oneFile "/cache" .eof

/-- Probe outcomes: only the detection command of apt succeeds. -/
def aptOnly : String → String → Bool := fun _ k => k == "apt"

/-- Probe outcomes: the detection commands of apt and of dnf succeed. -/
def aptAndDnf : String → String → Bool := fun _ k => k == "apt" || k == "dnf"

/-- A valid store that records the identifier a under two buckets. -/
def twoBucketStore : cachedData :=
  ⟨"/cache", some [("zypper", ["a"]), ("others", ["a"])], [], true⟩

/-- A valid store that records the identifier a under zypper. -/
def zypperStore : cachedData := ⟨"/cache", some [("zypper", ["a"])], [], true⟩

/-- A file that records the identifier a under apt. -/
def aptFile : FS := oneFile "/cache" (.object (.value [("apt", ["a"])]) [])

/-- A valid store that records the identifier a under others. -/
def othersStore : cachedData := ⟨"/cache", some [("others", ["a"])], [], true⟩

/-- A file that records the identifier a under others. -/
def othersFile : FS := oneFile "/cache" (.object (.value [("others", ["a"])]) [])

/-- A file holding an object with an empty ids map and an empty outdated list. -/
def blankObjectFile : FS := oneFile "/cache" (.object (.value []) [])

/-- A valid store holding x twice under a bucket no driver is registered for. -/
def pacmanTwiceStore : cachedData := ⟨"/cache", some [("pacman", ["x", "x"])], [], true⟩

/-- A valid store with repeated identifiers under zypper and in outdated. -/
def repeatedStore : cachedData := ⟨"/cache", some [("zypper", ["a", "a"])], ["o", "o"], true⟩

/-- A file with repeated identifiers under zypper and in outdated. -/
def repeatedFile : FS := oneFile "/cache" (.object (.value [("zypper", ["b", "a", "b"])]) ["o", "p", "p"])

/-- A valid store holding y under a bucket no driver is registered for. -/
def pacmanStore : cachedData := ⟨"/cache", some [("pacman", ["y"])], [], true⟩

/-- The file of the merge scenario of the spec: the backend zypper holds x. -/
def xFile : FS := oneFile "/cache" (.object (.value [("zypper", ["x"])]) [])

/-- The first store of the merge scenario: loaded from the file, then y added. -/
def xyStore : cachedData := ⟨"/cache", some [("zypper", ["x", "y"])], [], true⟩

/-- The second store of the merge scenario: loaded from the file, then z added. -/
def xzStore : cachedData := ⟨"/cache", some [("zypper", ["x", "z"])], [], true⟩

/-- The bucket names a file content holds in its ids object. -/
def Content.bucketKeys : Content → List String
  | .object (.value m) _ => entryKeys m
  | _ => []

/-- The bucket names the file at a path holds in its ids object. -/
def fileKeys (fs : FS) (path : String) : List String :=
  match fs path with
  | .file c => c.bucketKeys
  | _ => []

/-- The store of TestFlush: an allocated empty map, no outdated identifiers,
and the given value of Valid. -/
def testFlushStore (valid : Bool) : cachedData := ⟨"/test/testflush.json", some [], [], valid⟩

/-- The file TestFlush writes before it flushes: the object with the buckets
dnf = [1], others = [] and zypper = [], and an empty outdated list. -/
def testFlushFile : FS :=
  oneFile "/test/testflush.json"
    (.object (.value [("dnf", ["1"]), ("others", []), ("zypper", [])]) [])

/-- The store of the test on an image that is already known: the zero values
of Path and Valid, one outdated identifier and 2 under zypper. -/
def knownImageStore : cachedData :=
  ⟨"", some [("zypper", ["2"])],
    ["35ae93c88cf8ab18da63bb2ad2dfd2399d745f292a344625fbb65892b7c25a01"], false⟩

/-- A file with a history: a under zypper and b in the outdated list. -/
def historyFile : FS := oneFile "/cache" (.object (.value [("zypper", ["a"])]) ["b"])

/-! ## Lemmas on maps and slices -/

theorem entryGet_entrySet (m : IDMap) (k k' : String) (v : List String) :
    entryGet (entrySet m k v) k' = if k = k' then v else entryGet m k' := by
  induction m with
  | nil => simp [entrySet, entryGet]
  | cons e rest ih =>
    obtain ⟨a, b⟩ := e
    by_cases h : a = k
    · subst h
      by_cases h2 : a = k' <;> simp [entrySet, entryGet, h2]
    · by_cases h2 : a = k'
      · subst h2
        have h3 : ¬ k = a := fun e => h e.symm
        simp [entrySet, entryGet, h, h3]
      · simp [entrySet, entryGet, h, h2, ih]

theorem entryGet_entrySet_self (m : IDMap) (k : String) (v : List String) :
    entryGet (entrySet m k v) k = v := by
  simp [entryGet_entrySet]

theorem entryGet_entrySet_ne (m : IDMap) (k k' : String) (v : List String) (h : k ≠ k') :
    entryGet (entrySet m k v) k' = entryGet m k' := by
  simp [entryGet_entrySet, h]

theorem entrySet_entrySet (m : IDMap) (k : String) (v w : List String) :
    entrySet (entrySet m k v) k w = entrySet m k w := by
  induction m with
  | nil => simp [entrySet]
  | cons e rest ih =>
    obtain ⟨a, b⟩ := e
    by_cases h : a = k <;> simp [entrySet, h, ih]

theorem mem_entryKeys_entrySet (m : IDMap) (k k' : String) (v : List String) :
    k' ∈ entryKeys (entrySet m k v) ↔ k' = k ∨ k' ∈ entryKeys m := by
  induction m with
  | nil => simp [entrySet, entryKeys]
  | cons e rest ih =>
    obtain ⟨a, b⟩ := e
    by_cases h : a = k
    · subst h
      simp [entrySet, entryKeys]
    · simp only [entryKeys] at ih
      simp only [entrySet, h, if_false, entryKeys, List.map_cons, List.mem_cons, ih]
      tauto

theorem entrySet_self (m : IDMap) (k : String) (h : k ∈ entryKeys m) :
    entrySet m k (entryGet m k) = m := by
  induction m with
  | nil => simp [entryKeys] at h
  | cons e rest ih =>
    obtain ⟨a, b⟩ := e
    by_cases h2 : a = k
    · simp [entrySet, entryGet, h2]
    · have h3 : k ∈ entryKeys rest := by
        simp only [entryKeys, List.map_cons, List.mem_cons] at h
        rcases h with h | h
        · exact absurd h.symm h2
        · exact h
      simp [entrySet, entryGet, h2, ih h3]

theorem entryGet_of_not_mem (m : IDMap) (k : String) (h : k ∉ entryKeys m) :
    entryGet m k = [] := by
  induction m with
  | nil => rfl
  | cons e rest ih =>
    obtain ⟨a, b⟩ := e
    simp only [entryKeys, List.map_cons, List.mem_cons, not_or] at h
    have h2 : ¬ a = k := fun e => h.1 e.symm
    simp only [entryGet, h2, if_false]
    exact ih h.2

theorem ArrayIncludeString_iff (ids : List String) (id : String) :
    ArrayIncludeString ids id = true ↔ id ∈ ids := by
  simp [ArrayIncludeString]

theorem mem_RemoveDuplicates (l : List String) (x : String) :
    x ∈ RemoveDuplicates l ↔ x ∈ l := by
  induction l with
  | nil => simp [RemoveDuplicates]
  | cons a rest ih =>
    simp only [RemoveDuplicates, List.mem_cons, List.mem_filter, ih, decide_eq_true_eq]
    by_cases h : x = a <;> simp [h]

theorem nodup_RemoveDuplicates (l : List String) : (RemoveDuplicates l).Nodup := by
  induction l with
  | nil => simp [RemoveDuplicates]
  | cons a rest ih =>
    simp only [RemoveDuplicates, List.nodup_cons, List.mem_filter, decide_eq_true_eq]
    exact ⟨fun h => h.2 rfl, ih.filter _⟩

/-! ## Lemmas on the merge of flush -/

theorem setIDs_some (cd : cachedData) (m : IDMap) (k : String) (v : List String)
    (h : cd.IDs = some m) :
    cd.setIDs k v = .ok { cd with IDs := some (entrySet m k v) } := by
  simp [cachedData.setIDs, h]

theorem setIDs_none (cd : cachedData) (k : String) (v : List String) (h : cd.IDs = none) :
    cd.setIDs k v = .error Fault.nilMapAssign := by
  simp [cachedData.setIDs, h]

theorem getIDs_some (cd : cachedData) (m : IDMap) (k : String) (h : cd.IDs = some m) :
    cd.getIDs k = entryGet m k := by
  simp [cachedData.getIDs, h]

theorem mergeBucket_some (oldCache cd : cachedData) (m : IDMap) (k : String)
    (h : cd.IDs = some m) :
    mergeBucket oldCache cd k =
      .ok { cd with
        IDs := some (entrySet m k (RemoveDuplicates (entryGet m k ++ oldCache.getIDs k))) } := by
  simp [mergeBucket, cachedData.setIDs, cachedData.getIDs, h, entryGet_entrySet_self,
    entrySet_entrySet]

theorem mergeBucket_none (oldCache cd : cachedData) (k : String) (h : cd.IDs = none) :
    mergeBucket oldCache cd k = .error Fault.nilMapAssign := by
  simp [mergeBucket, cachedData.setIDs, h]

theorem mergeBuckets_some (oldCache cd : cachedData) (m : IDMap) (ks : List String)
    (h : cd.IDs = some m) :
    mergeBuckets oldCache cd ks = .ok { cd with IDs := some (mergeEntries oldCache m ks) } := by
  induction ks generalizing cd m with
  | nil => simp [mergeBuckets, mergeEntries, ← h]
  | cons k rest ih =>
    simp only [mergeBuckets, mergeBucket_some oldCache cd m k h, mergeEntries]
    rw [ih _ _ rfl]

theorem mergeEntries_append (oldCache : cachedData) (m : IDMap) (ks ls : List String) :
    mergeEntries oldCache m (ks ++ ls) = mergeEntries oldCache (mergeEntries oldCache m ks) ls := by
  induction ks generalizing m with
  | nil => rfl
  | cons k rest ih => simp [mergeEntries, ih]

theorem mergeCache_some (oldCache cd : cachedData) (m : IDMap) (h : cd.IDs = some m) :
    mergeCache oldCache cd = .ok (merged oldCache cd m) := by
  simp only [mergeCache, mergeBuckets_some oldCache cd m Available h]
  rw [mergeBucket_some oldCache _ (mergeEntries oldCache m Available) otherKey rfl]
  simp [merged, registered, mergeEntries_append, mergeEntries]

theorem mergeCache_none (oldCache cd : cachedData) (h : cd.IDs = none) :
    mergeCache oldCache cd = .error Fault.nilMapAssign := by
  simp [mergeCache, Available, mergeBuckets, mergeBucket_none oldCache cd _ h]

theorem entryGet_mergeEntries (oldCache : cachedData) (m : IDMap) (ks : List String)
    (hks : ks.Nodup) (k : String) :
    entryGet (mergeEntries oldCache m ks) k =
      if k ∈ ks then RemoveDuplicates (entryGet m k ++ oldCache.getIDs k) else entryGet m k := by
  induction ks generalizing m with
  | nil => simp [mergeEntries]
  | cons k0 rest ih =>
    rw [List.nodup_cons] at hks
    simp only [mergeEntries, ih _ hks.2, List.mem_cons]
    by_cases e : k = k0
    · subst e
      simp [hks.1, entryGet_entrySet_self]
    · have e2 : k0 ≠ k := fun x => e x.symm
      simp [e, entryGet_entrySet_ne _ _ _ _ e2]

theorem mem_entryKeys_mergeEntries (oldCache : cachedData) (m : IDMap) (ks : List String)
    (k : String) :
    k ∈ entryKeys (mergeEntries oldCache m ks) ↔ k ∈ ks ∨ k ∈ entryKeys m := by
  induction ks generalizing m with
  | nil => simp [mergeEntries]
  | cons k0 rest ih =>
    simp only [mergeEntries, ih, mem_entryKeys_entrySet, List.mem_cons]
    tauto

theorem registered_nodup : registered.Nodup := by
  decide

theorem flush_invalid (cd : cachedData) (fs : FS) (h : cd.Valid = false) :
    cd.flush fs = .ok (cd, fs) := by
  simp [cachedData.flush, h]

theorem flush_denied (cd : cachedData) (fs : FS) (h : fs cd.Path = .denied) :
    cd.flush fs = .ok (cd, fs) := by
  simp [cachedData.flush, h]

theorem flush_missing (cd : cachedData) (fs : FS) (h : fs cd.Path = .missing) :
    cd.flush fs = .ok (cd, fs) := by
  simp [cachedData.flush, h]

theorem flush_file (cd oldCache : cachedData) (fs : FS) (m : IDMap) (c : Content)
    (hv : cd.Valid = true) (hm : cd.IDs = some m) (hf : fs cd.Path = .file c)
    (hr : cd.readCache c = some oldCache) :
    cd.flush fs = .ok (merged oldCache cd m,
      Function.update fs cd.Path (.file (encode (merged oldCache cd m)))) := by
  simp [cachedData.flush, hv, hf, hr, mergeCache_some oldCache cd m hm]

theorem flush_file_nilMap (cd oldCache : cachedData) (fs : FS) (c : Content)
    (hv : cd.Valid = true) (hm : cd.IDs = none) (hf : fs cd.Path = .file c)
    (hr : cd.readCache c = some oldCache) :
    cd.flush fs = .error Fault.nilMapAssign := by
  simp [cachedData.flush, hv, hf, hr, mergeCache_none oldCache cd hm]

theorem flush_file_null (cd : cachedData) (fs : FS) (hv : cd.Valid = true)
    (hf : fs cd.Path = .file .null) :
    cd.flush fs = .error Fault.nilPointer := by
  simp [cachedData.flush, hv, hf, cachedData.readCache]

/-! ## Lemmas on flush -/

theorem readCache_of_ne_null (cd : cachedData) (c : Content) (hc : c ≠ .null) :
    ∃ oldCache, cd.readCache c = some oldCache ∧
      (∀ k, oldCache.getIDs k = c.bucket k) ∧ oldCache.Outdated = c.outdatedIDs := by
  cases c with
  | eof => exact ⟨_, rfl, fun _ => rfl, rfl⟩
  | malformed => exact ⟨_, rfl, fun _ => rfl, rfl⟩
  | null => exact absurd rfl hc
  | object ids outdated =>
    refine ⟨_, rfl, ?_, rfl⟩
    intro k
    cases ids <;> rfl

theorem getIDs_merged (oldCache cd : cachedData) (m : IDMap) (k : String) :
    (merged oldCache cd m).getIDs k =
      if k ∈ registered then RemoveDuplicates (entryGet m k ++ oldCache.getIDs k)
      else entryGet m k := by
  simp only [merged, cachedData.getIDs]
  exact entryGet_mergeEntries oldCache m registered registered_nodup k

theorem fileBucket_update_encode (fs : FS) (path : String) (cd : cachedData) (k : String) :
    fileBucket (Function.update fs path (.file (encode cd))) path k = cd.getIDs k := by
  simp only [fileBucket, Function.update_same, encode, cachedData.getIDs]
  cases cd.IDs <;> rfl

theorem fileOutdated_update_encode (fs : FS) (path : String) (cd : cachedData) :
    fileOutdated (Function.update fs path (.file (encode cd))) path = cd.Outdated := by
  simp [fileOutdated, encode, Content.outdatedIDs]

/-- What flush does when it reaches the write: the store is valid, its map is
allocated, the file can be locked and does not hold the JSON value null. -/
theorem flush_reaches_write (cd : cachedData) (fs : FS) (m : IDMap) (c : Content)
    (hv : cd.Valid = true) (hm : cd.IDs = some m) (hf : fs cd.Path = .file c)
    (hc : c ≠ .null) :
    ∃ cd1 fs1, cd.flush fs = .ok (cd1, fs1) ∧
      fs1 = Function.update fs cd.Path (.file (encode cd1)) ∧
      cd1.Path = cd.Path ∧ cd1.Valid = true ∧
      (∃ m1, cd1.IDs = some m1) ∧
      (∀ k, cd1.getIDs k =
        if k ∈ registered then RemoveDuplicates (cd.getIDs k ++ c.bucket k) else cd.getIDs k) ∧
      cd1.Outdated = RemoveDuplicates (cd.Outdated ++ c.outdatedIDs) ∧
      (∀ k ∈ registered, k ∈ cd1.keys) := by
  obtain ⟨oldCache, hr, hb, ho⟩ := readCache_of_ne_null cd c hc
  refine ⟨merged oldCache cd m, _, flush_file cd oldCache fs m c hv hm hf hr, rfl, rfl, hv,
    ⟨_, rfl⟩, ?_, ?_, ?_⟩
  · intro k
    rw [getIDs_merged, getIDs_some cd m k hm, hb]
  · simp [merged, ho]
  · intro k hk
    simp only [cachedData.keys, merged]
    exact (mem_entryKeys_mergeEntries oldCache m registered k).mpr (Or.inl hk)

/-! ## C1: write-back is a union with the disk state -/

/-- C1, as stated, fails: an identifier held by the file under a bucket name
that is not in drivers.Available (and is not otherKey) is missing from the
file after flush. -/
theorem flush_loses_unregistered_bucket :
    "x" ∈ fileBucket pacmanFile "/cache" "pacman" ∧
    ∃ cd1 fs1, emptyStore.flush pacmanFile = .ok (cd1, fs1) ∧
      "x" ∉ fileBucket fs1 "/cache" "pacman" := by
  refine ⟨by decide, _, _, rfl, ?_⟩
  decide

/-- C1, amended: for a valid store with an allocated map whose file can be
locked and holds a decodable object, flush returns, and afterwards the file
holds the encoded store, where every bucket named in drivers.Available, the
bucket otherKey and the outdated list are the duplicate-free union of the
in-memory identifiers and the identifiers of the file; a bucket under any
other name holds the in-memory identifiers only. -/
theorem flush_union_registered (cd : cachedData) (fs : FS) (m : IDMap) (ids : Field IDMap)
    (outdated : List String) (hv : cd.Valid = true) (hm : cd.IDs = some m)
    (hf : fs cd.Path = .file (.object ids outdated)) :
    ∃ cd1 fs1, cd.flush fs = .ok (cd1, fs1) ∧
      fs1 cd.Path = .file (encode cd1) ∧
      (∀ k ∈ registered, ∀ x,
        x ∈ fileBucket fs1 cd.Path k ↔ x ∈ cd.getIDs k ∨ x ∈ fileBucket fs cd.Path k) ∧
      (∀ k ∈ registered, (fileBucket fs1 cd.Path k).Nodup) ∧
      (∀ x, x ∈ fileOutdated fs1 cd.Path ↔ x ∈ cd.Outdated ∨ x ∈ fileOutdated fs cd.Path) ∧
      (fileOutdated fs1 cd.Path).Nodup ∧
      (∀ k, k ∉ registered → fileBucket fs1 cd.Path k = cd.getIDs k) := by
  obtain ⟨cd1, fs1, hfl, hfs, _, _, _, hget, hout, _⟩ :=
    flush_reaches_write cd fs m (.object ids outdated) hv hm hf (by simp)
  have hb : ∀ k, fileBucket fs cd.Path k = (Content.object ids outdated).bucket k := by
    intro k
    simp [fileBucket, hf]
  have ho : fileOutdated fs cd.Path = outdated := by
    simp [fileOutdated, hf, Content.outdatedIDs]
  refine ⟨cd1, fs1, hfl, ?_, ?_, ?_, ?_, ?_, ?_⟩
  · rw [hfs]
    simp
  · intro k hk x
    rw [hfs, fileBucket_update_encode, hget, if_pos hk, mem_RemoveDuplicates, List.mem_append, hb]
  · intro k hk
    rw [hfs, fileBucket_update_encode, hget, if_pos hk]
    exact nodup_RemoveDuplicates _
  · intro x
    rw [hfs, fileOutdated_update_encode, hout, mem_RemoveDuplicates, List.mem_append, ho]
    rfl
  · rw [hfs, fileOutdated_update_encode, hout]
    exact nodup_RemoveDuplicates _
  · intro k hk
    rw [hfs, fileBucket_update_encode, hget, if_neg hk]

/-- The scenario of C1: memory zypper = [a, c]; file zypper = [a], dnf = [b],
outdated = [a]. -/
theorem flush_union_registered_witness :
    ∃ cd1 fs1, scenarioStore.flush scenarioFile = .ok (cd1, fs1) ∧
      fs1 scenarioStore.Path = .file (encode cd1) ∧
      (∀ k ∈ registered, ∀ x,
        x ∈ fileBucket fs1 scenarioStore.Path k ↔
          x ∈ scenarioStore.getIDs k ∨ x ∈ fileBucket scenarioFile scenarioStore.Path k) ∧
      (∀ k ∈ registered, (fileBucket fs1 scenarioStore.Path k).Nodup) ∧
      (∀ x, x ∈ fileOutdated fs1 scenarioStore.Path ↔
        x ∈ scenarioStore.Outdated ∨ x ∈ fileOutdated scenarioFile scenarioStore.Path) ∧
      (fileOutdated fs1 scenarioStore.Path).Nodup ∧
      (∀ k, k ∉ registered → fileBucket fs1 scenarioStore.Path k = scenarioStore.getIDs k) :=
  flush_union_registered scenarioStore scenarioFile [("zypper", ["a", "c"])]
    (.value [("zypper", ["a"]), ("dnf", ["b"])]) ["a"] rfl rfl (by decide)

/-! ## Lemmas on isSupported -/

theorem idExists_of_not_mem (cd : cachedData) (id : String) (visit : List String)
    (h : ∀ k ∈ visit, id ∉ cd.getIDs k) : cd.idExists visit id = (false, "") := by
  induction visit with
  | nil => rfl
  | cons k rest ih =>
    have hk : ArrayIncludeString (cd.getIDs k) id = false := by
      rw [Bool.eq_false_iff, Ne, ArrayIncludeString_iff]
      exact h k (List.mem_cons_self _ _)
    simp only [cachedData.idExists, hk, Bool.false_eq_true, if_false]
    exact ih (fun j hj => h j (List.mem_cons_of_mem _ hj))

theorem idExists_of_mem (cd : cachedData) (id : String) (visit : List String)
    (h : ∃ k ∈ visit, id ∈ cd.getIDs k) :
    ∃ k ∈ visit, id ∈ cd.getIDs k ∧ cd.idExists visit id = (true, k) := by
  induction visit with
  | nil =>
    obtain ⟨k, hk, _⟩ := h
    simp at hk
  | cons k0 rest ih =>
    by_cases h0 : id ∈ cd.getIDs k0
    · refine ⟨k0, List.mem_cons_self _ _, h0, ?_⟩
      simp [cachedData.idExists, (ArrayIncludeString_iff _ _).mpr h0]
    · have hrest : ∃ k ∈ rest, id ∈ cd.getIDs k := by
        obtain ⟨k, hk, hid⟩ := h
        rcases List.mem_cons.mp hk with e | e
        · subst e
          exact absurd hid h0
        · exact ⟨k, e, hid⟩
      obtain ⟨k, hk, hid, hres⟩ := ih hrest
      refine ⟨k, List.mem_cons_of_mem _ hk, hid, ?_⟩
      have hf : ArrayIncludeString (cd.getIDs k0) id = false := by
        rw [Bool.eq_false_iff, Ne, ArrayIncludeString_iff]
        exact h0
      simp [cachedData.idExists, hf, hres]

theorem getIDs_nil_map (cd : cachedData) (k : String) (h : cd.IDs = none) :
    cd.getIDs k = [] := by
  simp [cachedData.getIDs, h]

theorem probeLoop_nil_map (probe : String → String → Bool) (cd : cachedData) (id : String)
    (drivers probed : List String) (h : cd.IDs = none) :
    probeLoop probe cd id drivers probed = .error Fault.nilMapAssign := by
  induction drivers generalizing probed with
  | nil => simp [probeLoop, setIDs_none cd _ _ h]
  | cons k rest ih =>
    by_cases hp : probe id k = true
    · simp [probeLoop, hp, setIDs_none cd _ _ h]
    · simp [probeLoop, hp, ih]

/-! ## C2: the store obtained after a decode failure -/

/-- C2, at a cache file that does not decode: getCacheFile returns a store
with Valid = true whose ids map is nil, and for every identifier, every probe
outcome and every visiting order the following isSupported panics on the
assignment into the nil map, as does a following flush; the file keeps its
undecodable content. -/
theorem getCacheFile_malformed_panics :
    ∃ cd, getCacheFile ["/cache"] malformedFile = (some cd, malformedFile) ∧
      cd.Valid = true ∧ cd.IDs = none ∧
      (∀ (visitIDs visitDrivers : List String) (probe : String → String → Bool) (id : String),
        cd.isSupported visitIDs visitDrivers probe id = .error Fault.nilMapAssign) ∧
      cd.flush malformedFile = .error Fault.nilMapAssign := by
  refine ⟨⟨"/cache", none, [], true⟩, rfl, rfl, rfl, ?_, ?_⟩
  · intro visitIDs visitDrivers probe id
    have h1 : (cachedData.idExists visitIDs ⟨"/cache", none, [], true⟩ id) = (false, "") :=
      idExists_of_not_mem _ _ _ (fun k _ => by simp [getIDs_nil_map])
    simp only [cachedData.isSupported, h1, Bool.and_false, Bool.false_eq_true, if_false, if_true]
    exact probeLoop_nil_map probe _ id visitDrivers [] rfl
  · exact flush_file_nilMap _ ⟨"/cache", none, [], true⟩ _ .malformed rfl rfl rfl rfl

/-! ## C3: the invalid store -/

/-- C3, at an invalid store: isSupported returns (false, "") without running
any probe, whatever the probe outcomes, and leaves the store as it is. -/
theorem isSupported_invalid_never_probes (visitIDs visitDrivers : List String)
    (probe : String → String → Bool) (path : String) (ids : Option IDMap)
    (outdated : List String) (id : String) :
    cachedData.isSupported visitIDs visitDrivers probe ⟨path, ids, outdated, false⟩ id =
      .ok ⟨false, "", [], ⟨path, ids, outdated, false⟩⟩ := by
  simp [cachedData.isSupported]

/-! ## C4: persistence of a learned classification -/

/-- C4, at the scenario of the spec (empty file, identifier img1, only the
probe of apt succeeds): isSupported of backend.go returns true and
CurrentDriverWithID returns the apt driver, and in both cases the file system
is left as it was, with the cache file still empty. -/
theorem learned_classification_not_written :
    isSupported ["/cache"] [] AvailableDrivers aptOnly emptyFile "img1" = .ok (true, emptyFile) ∧
    CurrentDriverWithID ["/cache"] [] AvailableDrivers aptOnly emptyFile "img1" =
      .ok ("apt", emptyFile) ∧
    emptyFile "/cache" = .file .eof := by
  refine ⟨rfl, rfl, rfl⟩

theorem mem_keys_of_mem_getIDs (cd : cachedData) (id k : String) (h : id ∈ cd.getIDs k) :
    k ∈ cd.keys := by
  cases hm : cd.IDs with
  | none => simp [cachedData.getIDs, hm] at h
  | some m =>
    simp only [cachedData.keys, hm]
    by_contra hk
    simp [cachedData.getIDs, hm, entryGet_of_not_mem m k hk] at h

theorem probeLoop_some (probe : String → String → Bool) (cd : cachedData) (id : String)
    (m : IDMap) (hm : cd.IDs = some m) (drivers probed : List String) :
    probeLoop probe cd id drivers probed =
      match drivers.find? (fun k => probe id k) with
      | some k => .ok ⟨true, k, probed ++ drivers.takeWhile (fun j => !probe id j) ++ [k],
          { cd with IDs := some (entrySet m k (entryGet m k ++ [id])) }⟩
      | none => .ok ⟨false, "", probed ++ drivers,
          { cd with IDs := some (entrySet m otherKey (entryGet m otherKey ++ [id])) }⟩ := by
  induction drivers generalizing probed with
  | nil => simp [probeLoop, setIDs_some cd m _ _ hm, getIDs_some cd m _ hm]
  | cons k rest ih =>
    by_cases hp : probe id k = true
    · simp [probeLoop, hp, setIDs_some cd m _ _ hm, getIDs_some cd m _ hm]
    · have hp2 : probe id k = false := by simpa using hp
      simp only [probeLoop, hp2, Bool.false_eq_true, if_false, ih, List.find?_cons,
        List.takeWhile_cons, Bool.not_false, List.append_assoc, List.singleton_append,
        List.cons_append, List.nil_append, if_true]

theorem find?_eq_of_perm_of_unique (p : String → Bool) (l1 l2 : List String) (hperm : l2.Perm l1)
    (huniq : ∀ j k, j ∈ l1 → k ∈ l1 → p j = true → p k = true → j = k) :
    l2.find? p = l1.find? p := by
  cases h1 : l1.find? p with
  | none =>
    rw [List.find?_eq_none] at h1 ⊢
    intro x hx
    exact h1 x (hperm.mem_iff.mp hx)
  | some k =>
    have hk := List.find?_some h1
    have hkm := List.mem_of_find?_eq_some h1
    cases h2 : l2.find? p with
    | none =>
      rw [List.find?_eq_none] at h2
      exact absurd hk (h2 k (hperm.mem_iff.mpr hkm))
    | some j =>
      have hj := List.find?_some h2
      have hjm := hperm.mem_iff.mp (List.mem_of_find?_eq_some h2)
      rw [huniq j k hjm hkm hj hk]

theorem idExists_eq_find (cd : cachedData) (id : String) (visit : List String) :
    cd.idExists visit id =
      match visit.find? (fun j => ArrayIncludeString (cd.getIDs j) id) with
      | some k => (true, k)
      | none => (false, "") := by
  induction visit with
  | nil => rfl
  | cons k rest ih =>
    by_cases h : ArrayIncludeString (cd.getIDs k) id = true
    · simp [cachedData.idExists, List.find?_cons, h]
    · have h2 : ArrayIncludeString (cd.getIDs k) id = false := by simpa using h
      simp only [cachedData.idExists, List.find?_cons, h2, Bool.false_eq_true, if_false, ih]

theorem find?_split (p : String → Bool) (l : List String) (k : String)
    (h : l.find? p = some k) :
    ∃ pre post, l = pre ++ k :: post ∧ ∀ j ∈ pre, p j = false := by
  induction l with
  | nil => simp at h
  | cons a rest ih =>
    by_cases ha : p a = true
    · simp only [List.find?_cons, ha, Option.some.injEq] at h
      subst h
      exact ⟨[], rest, rfl, fun j hj => by simp at hj⟩
    · have ha2 : p a = false := by simpa using ha
      simp only [List.find?_cons, ha2] at h
      obtain ⟨pre, post, e, hpre⟩ := ih h
      refine ⟨a :: pre, post, by rw [e]; rfl, ?_⟩
      intro j hj
      rcases List.mem_cons.mp hj with e2 | e2
      · rw [e2]
        exact ha2
      · exact hpre j e2

/-! ## C5: no re-classification -/

/-- C5, as stated, fails on a store that records an identifier under two
buckets: the identifier a is recorded under zypper and under others, and the
name isSupported returns is the one the range over the map yields first, so
for either visiting order a bucket that records a is not the one returned. -/
theorem isSupported_two_buckets :
    "a" ∈ twoBucketStore.getIDs "zypper" ∧ "a" ∈ twoBucketStore.getIDs "others" ∧
    twoBucketStore.isSupported ["zypper", "others"] AvailableDrivers aptOnly "a" =
      .ok ⟨true, "zypper", [], twoBucketStore⟩ ∧
    twoBucketStore.isSupported ["others", "zypper"] AvailableDrivers aptOnly "a" =
      .ok ⟨false, "others", [], twoBucketStore⟩ := by
  refine ⟨by decide, by decide, rfl, rfl⟩

/-- C5, amended: for a valid store and an identifier recorded in a bucket B,
when the range over the map visits every key, isSupported runs no probe,
leaves the store unchanged and returns the name k of the first bucket, in the
order in which the range visits the keys, that records the identifier: k
records it and no key visited before k does. That name is B when no other
bucket records the identifier. The first returned value tells whether the
name differs from otherKey. -/
theorem isSupported_known (cd : cachedData) (visitIDs visitDrivers : List String)
    (probe : String → String → Bool) (id B : String) (hv : cd.Valid = true)
    (hvisit : ∀ k, k ∈ cd.keys → k ∈ visitIDs) (hB : id ∈ cd.getIDs B) :
    (∃ k pre post, visitIDs = pre ++ k :: post ∧ (∀ j ∈ pre, id ∉ cd.getIDs j) ∧
      id ∈ cd.getIDs k ∧
      visitIDs.find? (fun j => ArrayIncludeString (cd.getIDs j) id) = some k ∧
      cd.isSupported visitIDs visitDrivers probe id = .ok ⟨k != otherKey, k, [], cd⟩) ∧
    ((∀ k, id ∈ cd.getIDs k → k = B) →
      cd.isSupported visitIDs visitDrivers probe id = .ok ⟨B != otherKey, B, [], cd⟩) := by
  have hBv : B ∈ visitIDs := hvisit B (mem_keys_of_mem_getIDs cd id B hB)
  cases hfind : visitIDs.find? (fun j => ArrayIncludeString (cd.getIDs j) id) with
  | none =>
    rw [List.find?_eq_none] at hfind
    exact absurd ((ArrayIncludeString_iff _ _).mpr hB) (hfind B hBv)
  | some k =>
    have hpk := List.find?_some hfind
    have hk : id ∈ cd.getIDs k := (ArrayIncludeString_iff _ _).mp hpk
    have hres : cd.idExists visitIDs id = (true, k) := by
      rw [idExists_eq_find, hfind]
    have hcall : cd.isSupported visitIDs visitDrivers probe id =
        .ok ⟨k != otherKey, k, [], cd⟩ := by
      simp [cachedData.isSupported, hv, hres]
    obtain ⟨pre, post, hsplit, hpre⟩ := find?_split _ visitIDs k hfind
    refine ⟨⟨k, pre, post, hsplit, ?_, hk, rfl, hcall⟩, ?_⟩
    · intro j hj hmem
      have := hpre j hj
      rw [(ArrayIncludeString_iff _ _).mpr hmem] at this
      cases this
    · intro huniq
      rw [hcall, huniq k hk]

/-- C5 at a store that records 1 under dnf only. -/
theorem isSupported_known_witness :
    cachedData.isSupported ["zypper", "dnf"] AvailableDrivers aptOnly
      ⟨"/cache", some [("zypper", []), ("dnf", ["1"])], [], true⟩ "1" =
      .ok ⟨true, "dnf", [], ⟨"/cache", some [("zypper", []), ("dnf", ["1"])], [], true⟩⟩ :=
  (isSupported_known ⟨"/cache", some [("zypper", []), ("dnf", ["1"])], [], true⟩
    ["zypper", "dnf"] AvailableDrivers aptOnly "1" "dnf" rfl (by decide) (by decide)).2
    (by
      intro k hk
      by_contra hne
      have h1 : ¬ "dnf" = k := fun e => hne e.symm
      by_cases hz : "zypper" = k <;> simp [cachedData.getIDs, entryGet, hz, h1] at hk)

/-! ## C6: resolution of an unknown identifier -/

/-- C6, as stated, fails: the range over the map drivers.AvailableDrivers has
no fixed order, and when the probes of apt and of dnf both succeed two
visiting orders of the same three backends return different backends for the
same store and the same probe outcomes. -/
theorem isSupported_depends_on_visit_order :
    ["dnf", "apt", "zypper"].Perm AvailableDrivers ∧
    (emptyStore.isSupported [] AvailableDrivers aptAndDnf "img1").map (fun r => r.driver) =
      .ok "apt" ∧
    (emptyStore.isSupported [] ["dnf", "apt", "zypper"] aptAndDnf "img1").map (fun r => r.driver) =
      .ok "dnf" := by
  refine ⟨by decide, rfl, rfl⟩

/-- C6, amended: for a valid store with an allocated map, an identifier in no
bucket, any probe outcomes and any order in which the backends are visited,
isSupported returns. If some probe succeeds, it returns (true, k) for the
first backend k in the visiting order whose probe succeeds, having probed the
backends before k and k, and appends the identifier to the bucket k only. If
every probe fails it returns (false, "") after probing every backend and
appends the identifier to the bucket otherKey only. The outdated list is not
changed. When at most one backend has a succeeding probe, every other
visiting order of the same backends gives the same returned values and the
same store. -/
theorem isSupported_unknown (cd : cachedData) (m : IDMap) (visitIDs visitDrivers : List String)
    (probe : String → String → Bool) (id : String) (hv : cd.Valid = true)
    (hm : cd.IDs = some m) (hno : ∀ k, id ∉ cd.getIDs k) :
    ∃ r, cd.isSupported visitIDs visitDrivers probe id = .ok r ∧
      r.cd.Path = cd.Path ∧ r.cd.Valid = true ∧ r.cd.Outdated = cd.Outdated ∧
      (∀ k, visitDrivers.find? (fun j => probe id j) = some k →
        r.supported = true ∧ r.driver = k ∧
        r.probes = visitDrivers.takeWhile (fun j => !probe id j) ++ [k] ∧
        r.cd.getIDs k = cd.getIDs k ++ [id] ∧ ∀ j, j ≠ k → r.cd.getIDs j = cd.getIDs j) ∧
      (visitDrivers.find? (fun j => probe id j) = none →
        r.supported = false ∧ r.driver = "" ∧ r.probes = visitDrivers ∧
        r.cd.getIDs otherKey = cd.getIDs otherKey ++ [id] ∧
        ∀ j, j ≠ otherKey → r.cd.getIDs j = cd.getIDs j) ∧
      (∀ visitDrivers2 : List String, visitDrivers2.Perm visitDrivers →
        (∀ j k, j ∈ visitDrivers → k ∈ visitDrivers →
          probe id j = true → probe id k = true → j = k) →
        ∃ r2, cd.isSupported visitIDs visitDrivers2 probe id = .ok r2 ∧
          r2.supported = r.supported ∧ r2.driver = r.driver ∧ r2.cd = r.cd) := by
  have h1 : cd.idExists visitIDs id = (false, "") :=
    idExists_of_not_mem cd id visitIDs (fun k _ => hno k)
  have hcall : ∀ drivers, cd.isSupported visitIDs drivers probe id =
      probeLoop probe cd id drivers [] := by
    intro drivers
    simp [cachedData.isSupported, h1, hv]
  cases hfind : visitDrivers.find? (fun j => probe id j) with
  | none =>
    refine ⟨_, by rw [hcall, probeLoop_some probe cd id m hm, hfind], rfl, hv, rfl, ?_, ?_, ?_⟩
    · intro k hk
      simp at hk
    · intro _
      refine ⟨rfl, rfl, by simp, ?_, ?_⟩
      · simp [cachedData.getIDs, hm, entryGet_entrySet_self]
      · intro j hj
        simp [cachedData.getIDs, hm, entryGet_entrySet_ne _ _ _ _ (Ne.symm hj)]
    · intro visitDrivers2 hperm huniq
      have h2 := find?_eq_of_perm_of_unique (fun j => probe id j) visitDrivers visitDrivers2
        hperm huniq
      have hc2 := hcall visitDrivers2
      rw [probeLoop_some probe cd id m hm, h2, hfind] at hc2
      exact ⟨_, hc2, rfl, rfl, rfl⟩
  | some k0 =>
    refine ⟨_, by rw [hcall, probeLoop_some probe cd id m hm, hfind], rfl, hv, rfl, ?_, ?_, ?_⟩
    · intro k hk
      have e : k0 = k := by simpa using hk
      subst e
      refine ⟨rfl, rfl, by simp, ?_, ?_⟩
      · simp [cachedData.getIDs, hm, entryGet_entrySet_self]
      · intro j hj
        simp [cachedData.getIDs, hm, entryGet_entrySet_ne _ _ _ _ (Ne.symm hj)]
    · intro hk
      simp at hk
    · intro visitDrivers2 hperm huniq
      have h2 := find?_eq_of_perm_of_unique (fun j => probe id j) visitDrivers visitDrivers2
        hperm huniq
      have hc2 := hcall visitDrivers2
      rw [probeLoop_some probe cd id m hm, h2, hfind] at hc2
      exact ⟨_, hc2, rfl, rfl, rfl⟩

/-- C6 at the scenario of the spec: an empty store, the identifier img1, only
the probe of apt succeeds, and the range visits dnf, apt, zypper. -/
theorem isSupported_unknown_witness :
    ∃ r, emptyStore.isSupported [] ["dnf", "apt", "zypper"] aptOnly "img1" = .ok r ∧
      r.supported = true ∧ r.driver = "apt" ∧ r.probes = ["dnf", "apt"] ∧
      r.cd.getIDs "apt" = ["img1"] := by
  obtain ⟨r, hr, _, _, _, hs, _, _⟩ :=
    isSupported_unknown emptyStore [] [] ["dnf", "apt", "zypper"] aptOnly "img1" rfl rfl
      (fun _ => List.not_mem_nil _)
  obtain ⟨a, b, c, d, _⟩ := hs "apt" rfl
  exact ⟨r, hr, a, b, c, d⟩

/-! ## Lemmas on the outcomes of flush -/

theorem flush_ok_cases (cd : cachedData) (fs : FS) (cd1 : cachedData) (fs1 : FS)
    (h : cd.flush fs = .ok (cd1, fs1)) :
    (cd1 = cd ∧ fs1 = fs ∧ (cd.Valid = false ∨ ∀ c, fs cd.Path ≠ .file c)) ∨
    (∃ m c, cd.Valid = true ∧ cd.IDs = some m ∧ fs cd.Path = .file c ∧ c ≠ .null ∧
      fs1 = Function.update fs cd.Path (.file (encode cd1)) ∧
      cd1.Path = cd.Path ∧ cd1.Valid = true ∧ (∃ m1, cd1.IDs = some m1) ∧
      (∀ k, cd1.getIDs k =
        if k ∈ registered then RemoveDuplicates (cd.getIDs k ++ c.bucket k) else cd.getIDs k) ∧
      cd1.Outdated = RemoveDuplicates (cd.Outdated ++ c.outdatedIDs) ∧
      (∀ k ∈ registered, k ∈ cd1.keys)) := by
  cases hv : cd.Valid with
  | false =>
    rw [flush_invalid cd fs hv] at h
    injection h with h
    injection h with h1 h2
    exact Or.inl ⟨h1.symm, h2.symm, Or.inl rfl⟩
  | true =>
    cases hf : fs cd.Path with
    | denied =>
      rw [flush_denied cd fs hf] at h
      injection h with h
      injection h with h1 h2
      exact Or.inl ⟨h1.symm, h2.symm, Or.inr (fun c => by simp)⟩
    | missing =>
      rw [flush_missing cd fs hf] at h
      injection h with h
      injection h with h1 h2
      exact Or.inl ⟨h1.symm, h2.symm, Or.inr (fun c => by simp)⟩
    | file c =>
      by_cases hc : c = .null
      · subst hc
        rw [flush_file_null cd fs hv hf] at h
        cases h
      · cases hm : cd.IDs with
        | none =>
          obtain ⟨oldCache, hr, _, _⟩ := readCache_of_ne_null cd c hc
          rw [flush_file_nilMap cd oldCache fs c hv hm hf hr] at h
          cases h
        | some m =>
          obtain ⟨cd2, fs2, hfl, h1, h2, h3, h4, h5, h6, h7⟩ :=
            flush_reaches_write cd fs m c hv hm hf hc
          rw [hfl] at h
          injection h with h
          injection h with e1 e2
          subst e1
          subst e2
          exact Or.inr ⟨m, c, rfl, rfl, rfl, hc, h1, h2, h3, h4, h5, h6, h7⟩

theorem flush_returns (cd : cachedData) (fs : FS) (hm : cd.IDs ≠ none)
    (hf : fs cd.Path ≠ .file .null) : ∃ cd1 fs1, cd.flush fs = .ok (cd1, fs1) := by
  cases hv : cd.Valid with
  | false => exact ⟨_, _, flush_invalid cd fs hv⟩
  | true =>
    cases hp : fs cd.Path with
    | denied => exact ⟨_, _, flush_denied cd fs hp⟩
    | missing => exact ⟨_, _, flush_missing cd fs hp⟩
    | file c =>
      have hc : c ≠ .null := by
        intro e
        exact hf (by rw [hp, e])
      obtain ⟨m, hm2⟩ := Option.ne_none_iff_exists'.mp hm
      obtain ⟨cd1, fs1, h, _⟩ := flush_reaches_write cd fs m c hv hm2 hp hc
      exact ⟨cd1, fs1, h⟩

/-- After a flush that returns, the store is on the same path, its map is
still allocated if it was, the file does not hold the JSON value null if it
did not before, and whatever is recorded in the store or in the file was
recorded in one of them before. -/
theorem flush_frame (cd : cachedData) (fs : FS) (cd1 : cachedData) (fs1 : FS)
    (h : cd.flush fs = .ok (cd1, fs1)) :
    cd1.Path = cd.Path ∧ cd1.Valid = cd.Valid ∧
    (cd.IDs ≠ none → cd1.IDs ≠ none) ∧
    (fs cd.Path ≠ .file .null → fs1 cd.Path ≠ .file .null) ∧
    (∀ k x, recorded cd1 fs1 k x → recorded cd fs k x) := by
  rcases flush_ok_cases cd fs cd1 fs1 h with ⟨e1, e2, _⟩ | ⟨m, c, hv, hm, hf, hc, hfs, hp, hv1, hm1, hget, _, _⟩
  · subst e1
    subst e2
    exact ⟨rfl, rfl, id, id, fun _ _ hx => hx⟩
  · refine ⟨hp, by rw [hv1, hv], ?_, ?_, ?_⟩
    · intro _
      obtain ⟨m1, e⟩ := hm1
      simp [e]
    · intro _
      rw [hfs]
      simp [encode]
    · intro k x hx
      have hx1 : x ∈ cd1.getIDs k := by
        rcases hx with hx | hx
        · exact hx
        · rw [hp, hfs, fileBucket_update_encode] at hx
          exact hx
      rw [hget] at hx1
      have hb : fileBucket fs cd.Path k = c.bucket k := by simp [fileBucket, hf]
      by_cases hk : k ∈ registered
      · rw [if_pos hk, mem_RemoveDuplicates, List.mem_append] at hx1
        rcases hx1 with hx1 | hx1
        · exact Or.inl hx1
        · exact Or.inr (by rw [hb]; exact hx1)
      · rw [if_neg hk] at hx1
        exact Or.inl hx1

theorem single_of_added (R1 R2 : String → String → Prop) (k id : String)
    (hsub : ∀ j x, R2 j x → R1 j x ∨ (j = k ∧ x = id))
    (h1 : ∀ x j1 j2, R1 j1 x → R1 j2 x → j1 = j2)
    (hfresh : ∀ j, R1 j id → j = k) :
    ∀ x j1 j2, R2 j1 x → R2 j2 x → j1 = j2 := by
  intro x j1 j2 a b
  rcases hsub j1 x a with a | ⟨a1, a2⟩
  · rcases hsub j2 x b with b | ⟨b1, b2⟩
    · exact h1 x j1 j2 a b
    · subst b2
      rw [b1]
      exact hfresh j1 a
  · rcases hsub j2 x b with b | ⟨b1, _⟩
    · subst a2
      rw [a1]
      exact (hfresh j2 b).symm
    · rw [a1, b1]

/-! ## Lemmas on the steps of isSupported and updateCacheAfterUpdate -/

theorem isSupported_cases (cd : cachedData) (visitIDs visitDrivers : List String)
    (probe : String → String → Bool) (id : String) (r : Resolution)
    (hvisit : ∀ k, k ∈ cd.keys → k ∈ visitIDs)
    (h : cd.isSupported visitIDs visitDrivers probe id = .ok r) :
    r.cd = cd ∨
    (∃ m k, cd.IDs = some m ∧ (∀ j, id ∉ cd.getIDs j) ∧
      r.cd = { cd with IDs := some (entrySet m k (entryGet m k ++ [id])) }) := by
  cases hv : cd.Valid with
  | false =>
    simp [cachedData.isSupported, hv] at h
    exact Or.inl (by rw [← h])
  | true =>
    by_cases hex : ∃ k ∈ visitIDs, id ∈ cd.getIDs k
    · obtain ⟨k, _, _, hres⟩ := idExists_of_mem cd id visitIDs hex
      simp [cachedData.isSupported, hv, hres] at h
      exact Or.inl (by rw [← h])
    · have hno : ∀ j, id ∉ cd.getIDs j := by
        intro j hj
        exact hex ⟨j, hvisit j (mem_keys_of_mem_getIDs cd id j hj), hj⟩
      have h1 : cd.idExists visitIDs id = (false, "") :=
        idExists_of_not_mem cd id visitIDs (fun k _ => hno k)
      simp only [cachedData.isSupported, h1, hv, Bool.and_false, Bool.false_eq_true, if_false,
        if_true] at h
      cases hm : cd.IDs with
      | none =>
        rw [probeLoop_nil_map probe cd id visitDrivers [] hm] at h
        cases h
      | some m =>
        rw [probeLoop_some probe cd id m hm] at h
        cases hfind : visitDrivers.find? (fun j => probe id j) with
        | none =>
          rw [hfind] at h
          injection h with h
          exact Or.inr ⟨m, otherKey, rfl, hno, by rw [← h]; simp [hv]⟩
        | some k =>
          rw [hfind] at h
          injection h with h
          exact Or.inr ⟨m, k, rfl, hno, by rw [← h]; simp [hv]⟩

theorem isSupported_returns (cd : cachedData) (visitIDs visitDrivers : List String)
    (probe : String → String → Bool) (id : String) (hm : cd.IDs ≠ none) :
    ∃ r, cd.isSupported visitIDs visitDrivers probe id = .ok r := by
  obtain ⟨m, hm2⟩ := Option.ne_none_iff_exists'.mp hm
  unfold cachedData.isSupported
  split
  · exact ⟨_, rfl⟩
  · split
    · rw [probeLoop_some probe cd id m hm2]
      cases visitDrivers.find? (fun j => probe id j) <;> exact ⟨_, rfl⟩
    · exact ⟨_, rfl⟩

theorem recordOutdated_frame (cd : cachedData) (fs : FS) (x : String) (cd1 : cachedData)
    (fs1 : FS) (h : cd.recordOutdated fs x = .ok (cd1, fs1)) :
    cd1.Path = cd.Path ∧ (cd.IDs ≠ none → cd1.IDs ≠ none) ∧
    (fs cd.Path ≠ .file .null → fs1 cd.Path ≠ .file .null) ∧
    (∀ k y, recorded cd1 fs1 k y → recorded cd fs k y) := by
  unfold cachedData.recordOutdated at h
  split at h
  · injection h with h
    injection h with e1 e2
    subst e1
    subst e2
    exact ⟨rfl, id, id, fun _ _ hy => hy⟩
  · obtain ⟨a, _, b, c, d⟩ := flush_frame _ fs cd1 fs1 h
    exact ⟨a, b, c, d⟩

theorem recordOutdated_returns (cd : cachedData) (fs : FS) (x : String) (hm : cd.IDs ≠ none)
    (hf : fs cd.Path ≠ .file .null) : ∃ cd1 fs1, cd.recordOutdated fs x = .ok (cd1, fs1) := by
  unfold cachedData.recordOutdated
  split
  · exact ⟨_, _, rfl⟩
  · exact flush_returns _ fs hm hf

theorem recordUpdated_frame (cd : cachedData) (fs : FS) (u b : String) (cd1 : cachedData)
    (fs1 : FS) (h : cd.recordUpdated fs u b = .ok (cd1, fs1)) :
    cd1.Path = cd.Path ∧
    (∀ k y, recorded cd1 fs1 k y → recorded cd fs k y ∨ (k = b ∧ y = u)) := by
  unfold cachedData.recordUpdated at h
  split at h
  · injection h with h
    injection h with e1 e2
    subst e1
    subst e2
    exact ⟨rfl, fun _ _ hy => Or.inl hy⟩
  · cases hm : cd.IDs with
    | none =>
      rw [setIDs_none cd _ _ hm] at h
      cases h
    | some m =>
      rw [setIDs_some cd m _ _ hm] at h
      obtain ⟨a, _, _, _, d⟩ := flush_frame _ fs cd1 fs1 h
      refine ⟨a, ?_⟩
      intro k y hy
      rcases d k y hy with hy | hy
      · by_cases hk : b = k
        · subst hk
          simp only [cachedData.getIDs, entryGet_entrySet_self, hm, List.mem_append,
            List.mem_singleton] at hy
          rcases hy with hy | hy
          · exact Or.inl (Or.inl (by simpa [cachedData.getIDs, hm] using hy))
          · exact Or.inr ⟨rfl, hy⟩
        · simp only [cachedData.getIDs, entryGet_entrySet_ne _ _ _ _ hk] at hy
          exact Or.inl (Or.inl (by simpa [cachedData.getIDs, hm] using hy))
      · exact Or.inl (Or.inr hy)

theorem recordUpdated_returns (cd : cachedData) (fs : FS) (u b : String) (hm : cd.IDs ≠ none)
    (hf : fs cd.Path ≠ .file .null) : ∃ cd1 fs1, cd.recordUpdated fs u b = .ok (cd1, fs1) := by
  obtain ⟨m, hm2⟩ := Option.ne_none_iff_exists'.mp hm
  unfold cachedData.recordUpdated
  split
  · exact ⟨_, _, rfl⟩
  · rw [setIDs_some cd m _ _ hm2]
    exact flush_returns _ fs (by simp) hf

theorem updateCacheAfterUpdate_frame (getImageID : String → Option String) (cd : cachedData)
    (fs : FS) (o u b : String) (err : Bool) (cd1 : cachedData) (fs1 : FS)
    (h : cd.updateCacheAfterUpdate getImageID fs o u b = .ok (err, cd1, fs1)) :
    cd1.Path = cd.Path ∧
    (∀ k y, recorded cd1 fs1 k y → recorded cd fs k y ∨ (k = b ∧ y = u)) := by
  unfold cachedData.updateCacheAfterUpdate at h
  cases hg : getImageID o with
  | none =>
    rw [hg] at h
    injection h with h
    injection h with _ h
    injection h with e1 e2
    subst e1
    subst e2
    exact ⟨rfl, fun _ _ hy => Or.inl hy⟩
  | some oid =>
    simp only [hg] at h
    cases h1 : cd.recordOutdated fs oid with
    | error e => simp [h1] at h
    | ok p1 =>
      obtain ⟨cd2, fs2⟩ := p1
      simp only [h1] at h
      cases h2 : cd2.recordUpdated fs2 u b with
      | error e => simp [h2] at h
      | ok p2 =>
        obtain ⟨cd3, fs3⟩ := p2
        simp only [h2, Except.ok.injEq, Prod.mk.injEq] at h
        obtain ⟨_, e1, e2⟩ := h
        subst e1
        subst e2
        obtain ⟨a1, _, _, d1⟩ := recordOutdated_frame cd fs oid cd2 fs2 h1
        obtain ⟨a2, d2⟩ := recordUpdated_frame cd2 fs2 u b cd3 fs3 h2
        refine ⟨a2.trans a1, ?_⟩
        intro k y hy
        rcases d2 k y hy with hy | hy
        · exact Or.inl (d1 k y hy)
        · exact Or.inr hy

theorem updateCacheAfterUpdate_returns (getImageID : String → Option String) (cd : cachedData)
    (fs : FS) (o u b : String) (hm : cd.IDs ≠ none) (hf : fs cd.Path ≠ .file .null) :
    ∃ res, cd.updateCacheAfterUpdate getImageID fs o u b = .ok res := by
  unfold cachedData.updateCacheAfterUpdate
  cases hg : getImageID o with
  | none => exact ⟨_, rfl⟩
  | some oid =>
    obtain ⟨cd2, fs2, h1⟩ := recordOutdated_returns cd fs oid hm hf
    obtain ⟨p, hm2, hf2, _⟩ := recordOutdated_frame cd fs oid cd2 fs2 h1
    obtain ⟨cd3, fs3, h2⟩ := recordUpdated_returns cd2 fs2 u b (hm2 hm) (by rw [p]; exact hf2 hf)
    simp only [h1, h2]
    exact ⟨_, rfl⟩

theorem getIDs_one_key (path k : String) (v outdated : List String) (valid : Bool) (j x : String)
    (h : x ∈ cachedData.getIDs ⟨path, some [(k, v)], outdated, valid⟩ j) : j = k := by
  by_cases e : k = j
  · exact e.symm
  · simp [cachedData.getIDs, entryGet, e] at h

theorem fileBucket_one_key (path k : String) (v outdated : List String) (j x : String)
    (h : x ∈ fileBucket (oneFile path (.object (.value [(k, v)]) outdated)) path j) : j = k := by
  by_cases e : k = j
  · exact e.symm
  · simp [fileBucket, oneFile, Content.bucket, entryGet, e] at h

theorem reset_cases (cd : cachedData) (fs : FS) (cd1 : cachedData) (fs1 : FS)
    (h : cd.reset fs = .ok (cd1, fs1)) :
    cd1.Path = cd.Path ∧
    (∀ k x, recorded cd1 fs1 k x → x ∈ fileBucket fs cd.Path k) := by
  obtain ⟨a, _, _, _, d⟩ := flush_frame _ fs cd1 fs1 h
  refine ⟨a, ?_⟩
  intro k x hx
  rcases d k x hx with hx | hx
  · simp [cachedData.getIDs, entryGet] at hx
  · exact hx

/-! ## C7: the single-bucket invariant -/

/-- C7, as stated, fails for flush and for updateCacheAfterUpdate. A store
that records a under zypper and a file that records a under apt satisfy the
invariant each, and after flush the store and the file record a under both.
A store and a file that record a under others satisfy the invariant, and
after updateCacheAfterUpdate with the result identifier a and the backend
zypper the store and the file record a under zypper and under others. -/
theorem single_bucket_broken :
    (SingleBucket zypperStore ∧ FileSingleBucket aptFile "/cache" ∧
      ∃ cd1 fs1, zypperStore.flush aptFile = .ok (cd1, fs1) ∧
        ¬ SingleBucket cd1 ∧ ¬ FileSingleBucket fs1 "/cache") ∧
    (SingleBucket othersStore ∧ FileSingleBucket othersFile "/cache" ∧
      ∃ cd1 fs1, othersStore.updateCacheAfterUpdate (fun _ => some "o") othersFile
          "img" "a" "zypper" = .ok (false, cd1, fs1) ∧
        ¬ SingleBucket cd1 ∧ ¬ FileSingleBucket fs1 "/cache") := by
  refine ⟨⟨?_, ?_, _, _, rfl, ?_, ?_⟩, ⟨?_, ?_, _, _, rfl, ?_, ?_⟩⟩
  · intro x k1 k2 h1 h2
    rw [getIDs_one_key _ _ _ _ _ _ _ h1, getIDs_one_key _ _ _ _ _ _ _ h2]
  · intro x k1 k2 h1 h2
    rw [fileBucket_one_key _ _ _ _ _ _ h1, fileBucket_one_key _ _ _ _ _ _ h2]
  · intro h
    exact absurd (h "a" "zypper" "apt" (by decide) (by decide)) (by decide)
  · intro h
    exact absurd (h "a" "zypper" "apt" (by decide) (by decide)) (by decide)
  · intro x k1 k2 h1 h2
    rw [getIDs_one_key _ _ _ _ _ _ _ h1, getIDs_one_key _ _ _ _ _ _ _ h2]
  · intro x k1 k2 h1 h2
    rw [fileBucket_one_key _ _ _ _ _ _ h1, fileBucket_one_key _ _ _ _ _ _ h2]
  · intro h
    exact absurd (h "a" "zypper" "others" (by decide) (by decide)) (by decide)
  · intro h
    exact absurd (h "a" "zypper" "others" (by decide) (by decide)) (by decide)

/-- C7, amended: let the in-memory store and the file each satisfy the
single-bucket invariant. Then the store satisfies it after isSupported (which
writes no file) when the range over the map visits every key, and the store
and the file satisfy it after reset. After flush they satisfy it when the
store and the file satisfy it taken together, that is when no identifier is
under one bucket in memory and under another in the file; after
updateCacheAfterUpdate when in addition the result identifier is recorded
under no bucket other than the one of the backend. Each of the four returns
when the map is allocated and the file does not hold the JSON value null. -/
theorem single_bucket_preserved (cd : cachedData) (fs : FS) (hmem : SingleBucket cd)
    (hfile : FileSingleBucket fs cd.Path) :
    (∀ (visitIDs visitDrivers : List String) (probe : String → String → Bool) (id : String)
        (r : Resolution), (∀ k, k ∈ cd.keys → k ∈ visitIDs) →
        cd.isSupported visitIDs visitDrivers probe id = .ok r → SingleBucket r.cd) ∧
    (∀ cd1 fs1, cd.reset fs = .ok (cd1, fs1) →
        SingleBucket cd1 ∧ FileSingleBucket fs1 cd.Path) ∧
    (JointSingleBucket cd fs → ∀ cd1 fs1, cd.flush fs = .ok (cd1, fs1) →
        SingleBucket cd1 ∧ FileSingleBucket fs1 cd.Path) ∧
    (JointSingleBucket cd fs →
      ∀ (getImageID : String → Option String) (outdatedImg updatedImgID backend : String)
        (err : Bool) (cd1 : cachedData) (fs1 : FS),
        (∀ k, recorded cd fs k updatedImgID → k = backend) →
        cd.updateCacheAfterUpdate getImageID fs outdatedImg updatedImgID backend =
          .ok (err, cd1, fs1) →
        SingleBucket cd1 ∧ FileSingleBucket fs1 cd.Path) ∧
    (cd.IDs ≠ none → fs cd.Path ≠ .file .null →
      (∀ (visitIDs visitDrivers : List String) (probe : String → String → Bool) (id : String),
        ∃ r, cd.isSupported visitIDs visitDrivers probe id = .ok r) ∧
      (∃ res, cd.reset fs = .ok res) ∧
      (∃ res, cd.flush fs = .ok res) ∧
      (∀ (getImageID : String → Option String) (outdatedImg updatedImgID backend : String),
        ∃ res, cd.updateCacheAfterUpdate getImageID fs outdatedImg updatedImgID backend =
          .ok res)) := by
  refine ⟨?_, ?_, ?_, ?_, ?_⟩
  · intro visitIDs visitDrivers probe id r hvisit h
    rcases isSupported_cases cd visitIDs visitDrivers probe id r hvisit h with e | ⟨m, k, hm, hno, e⟩
    · rw [e]
      exact hmem
    · rw [e]
      apply single_of_added (fun j x => x ∈ cd.getIDs j) _ k id _ hmem
        (fun j hj => absurd hj (hno j))
      intro j x hx
      by_cases hk : k = j
      · subst hk
        simp only [cachedData.getIDs, entryGet_entrySet_self, List.mem_append,
          List.mem_singleton] at hx
        rcases hx with hx | hx
        · exact Or.inl (by simpa [cachedData.getIDs, hm] using hx)
        · exact Or.inr ⟨rfl, hx⟩
      · simp only [cachedData.getIDs, entryGet_entrySet_ne _ _ _ _ hk] at hx
        exact Or.inl (by simpa [cachedData.getIDs, hm] using hx)
  · intro cd1 fs1 h
    obtain ⟨hp, hsub⟩ := reset_cases cd fs cd1 fs1 h
    refine ⟨?_, ?_⟩
    · intro x k1 k2 a b
      exact hfile x k1 k2 (hsub k1 x (Or.inl a)) (hsub k2 x (Or.inl b))
    · intro x k1 k2 a b
      rw [← hp] at a b
      exact hfile x k1 k2 (hsub k1 x (Or.inr a)) (hsub k2 x (Or.inr b))
  · intro hj cd1 fs1 h
    obtain ⟨hp, _, _, _, hsub⟩ := flush_frame cd fs cd1 fs1 h
    refine ⟨?_, ?_⟩
    · intro x k1 k2 a b
      exact hj x k1 k2 (hsub k1 x (Or.inl a)) (hsub k2 x (Or.inl b))
    · intro x k1 k2 a b
      rw [← hp] at a b
      exact hj x k1 k2 (hsub k1 x (Or.inr a)) (hsub k2 x (Or.inr b))
  · intro hj getImageID o u b err cd1 fs1 hfresh h
    obtain ⟨hp, hsub⟩ := updateCacheAfterUpdate_frame getImageID cd fs o u b err cd1 fs1 h
    have key := single_of_added (recorded cd fs) (recorded cd1 fs1) b u hsub hj hfresh
    refine ⟨?_, ?_⟩
    · intro x k1 k2 a b
      exact key x k1 k2 (Or.inl a) (Or.inl b)
    · intro x k1 k2 a b
      rw [← hp] at a b
      exact key x k1 k2 (Or.inr a) (Or.inr b)
  · intro hm hf
    refine ⟨fun v1 v2 probe id => isSupported_returns cd v1 v2 probe id hm, ?_, ?_, ?_⟩
    · obtain ⟨cd1, fs1, h⟩ := flush_returns { cd with IDs := some [], Outdated := [] } fs
        (by simp) hf
      exact ⟨_, h⟩
    · obtain ⟨cd1, fs1, h⟩ := flush_returns cd fs hm hf
      exact ⟨_, h⟩
    · intro getImageID o u b
      exact updateCacheAfterUpdate_returns getImageID cd fs o u b hm hf

/-- C7 at a store and a file that both record a under others: the store and
the file after flush satisfy the invariant. -/
theorem single_bucket_preserved_witness :
    ∃ cd1 fs1, othersStore.flush othersFile = .ok (cd1, fs1) ∧
      SingleBucket cd1 ∧ FileSingleBucket fs1 othersStore.Path :=
  ⟨_, _, rfl,
    (single_bucket_preserved othersStore othersFile
      (fun _ k1 k2 h1 h2 => by
        rw [getIDs_one_key _ _ _ _ _ _ _ h1, getIDs_one_key _ _ _ _ _ _ _ h2])
      (fun _ k1 k2 h1 h2 => by
        rw [fileBucket_one_key _ _ _ _ _ _ h1, fileBucket_one_key _ _ _ _ _ _ h2])).2.2.1
      (fun _ k1 k2 h1 h2 => by
        have e1 : k1 = "others" := by
          rcases h1 with h1 | h1
          · exact getIDs_one_key _ _ _ _ _ _ _ h1
          · exact fileBucket_one_key _ _ _ _ _ _ h1
        have e2 : k2 = "others" := by
          rcases h2 with h2 | h2
          · exact getIDs_one_key _ _ _ _ _ _ _ h2
          · exact fileBucket_one_key _ _ _ _ _ _ h2
        rw [e1, e2])
      _ _ rfl⟩

/-! ## C8: no duplicates after write-back -/

/-- C8, as stated, fails: a bucket under a name that is not in
drivers.Available (and is not otherKey) is not deduplicated by flush; the
store and the written file keep x twice under pacman. -/
theorem flush_keeps_duplicates_unregistered :
    ∃ cd1 fs1, pacmanTwiceStore.flush blankObjectFile = .ok (cd1, fs1) ∧
      fs1 "/cache" = .file (encode cd1) ∧
      ¬ (cd1.getIDs "pacman").Nodup ∧ ¬ (fileBucket fs1 "/cache" "pacman").Nodup := by
  refine ⟨_, _, rfl, rfl, ?_, ?_⟩ <;> decide

/-- C8, amended: for a valid store with an allocated map and a file that can
be locked and does not hold the JSON value null, whatever identifiers either
repeats, flush returns and writes the encoded store, and afterwards no bucket
named in drivers.Available, nor the bucket otherKey, nor the outdated list
holds an identifier twice, in memory or in the file. A bucket under any other
name is left as it was in memory and written so. -/
theorem flush_no_duplicates_registered (cd : cachedData) (fs : FS) (m : IDMap) (c : Content)
    (hv : cd.Valid = true) (hm : cd.IDs = some m) (hf : fs cd.Path = .file c)
    (hc : c ≠ .null) :
    ∃ cd1 fs1, cd.flush fs = .ok (cd1, fs1) ∧
      fs1 cd.Path = .file (encode cd1) ∧
      (∀ k ∈ registered, (cd1.getIDs k).Nodup ∧ (fileBucket fs1 cd.Path k).Nodup) ∧
      cd1.Outdated.Nodup ∧ (fileOutdated fs1 cd.Path).Nodup ∧
      (∀ k, k ∉ registered →
        cd1.getIDs k = cd.getIDs k ∧ fileBucket fs1 cd.Path k = cd.getIDs k) := by
  obtain ⟨cd1, fs1, hfl, hfs, _, _, _, hget, hout, _⟩ :=
    flush_reaches_write cd fs m c hv hm hf hc
  refine ⟨cd1, fs1, hfl, ?_, ?_, ?_, ?_, ?_⟩
  · rw [hfs]
    simp
  · intro k hk
    rw [hfs, fileBucket_update_encode, hget, if_pos hk]
    exact ⟨nodup_RemoveDuplicates _, nodup_RemoveDuplicates _⟩
  · rw [hout]
    exact nodup_RemoveDuplicates _
  · rw [hfs, fileOutdated_update_encode, hout]
    exact nodup_RemoveDuplicates _
  · intro k hk
    rw [hfs, fileBucket_update_encode, hget, if_neg hk]
    exact ⟨rfl, rfl⟩

/-- C8 at a store and a file that both repeat identifiers under zypper and in
the outdated list. -/
theorem flush_no_duplicates_registered_witness :
    ∃ cd1 fs1, repeatedStore.flush repeatedFile = .ok (cd1, fs1) ∧
      fs1 repeatedStore.Path = .file (encode cd1) ∧
      (∀ k ∈ registered,
        (cd1.getIDs k).Nodup ∧ (fileBucket fs1 repeatedStore.Path k).Nodup) ∧
      cd1.Outdated.Nodup ∧ (fileOutdated fs1 repeatedStore.Path).Nodup ∧
      (∀ k, k ∉ registered →
        cd1.getIDs k = repeatedStore.getIDs k ∧
        fileBucket fs1 repeatedStore.Path k = repeatedStore.getIDs k) :=
  flush_no_duplicates_registered repeatedStore repeatedFile [("zypper", ["a", "a"])]
    (.object (.value [("zypper", ["b", "a", "b"])]) ["o", "p", "p"]) rfl rfl (by decide)
    (by decide)

/-! ## Lemmas on the encoded store -/


theorem bucket_encode (cd : cachedData) (k : String) : (encode cd).bucket k = cd.getIDs k := by
  simp only [encode, cachedData.getIDs]
  cases cd.IDs <;> rfl

theorem outdatedIDs_encode (cd : cachedData) : (encode cd).outdatedIDs = cd.Outdated := rfl

theorem encode_ne_null (cd : cachedData) : encode cd ≠ .null := by
  simp [encode]

/-! ## C9: two flushes in a row -/

/-- After a flush that reached the write, a second flush returns as well and
keeps, in every bucket and in the outdated list, in memory and in the file,
the identifiers the first flush left there. -/
theorem flush_twice_same_members (cd : cachedData) (fs : FS) (m : IDMap) (c : Content)
    (hv : cd.Valid = true) (hm : cd.IDs = some m) (hf : fs cd.Path = .file c)
    (hc : c ≠ .null) :
    ∃ cd1 fs1 cd2 fs2, cd.flush fs = .ok (cd1, fs1) ∧ cd1.flush fs1 = .ok (cd2, fs2) ∧
      (∀ k x, x ∈ cd2.getIDs k ↔ x ∈ cd1.getIDs k) ∧
      (∀ x, x ∈ cd2.Outdated ↔ x ∈ cd1.Outdated) ∧
      (∀ k x, x ∈ fileBucket fs2 cd.Path k ↔ x ∈ fileBucket fs1 cd.Path k) ∧
      (∀ x, x ∈ fileOutdated fs2 cd.Path ↔ x ∈ fileOutdated fs1 cd.Path) := by
  obtain ⟨cd1, fs1, hfl1, hfs1, hp1, hv1, ⟨m1, hm1⟩, _, _, _⟩ :=
    flush_reaches_write cd fs m c hv hm hf hc
  have hf1 : fs1 cd1.Path = .file (encode cd1) := by
    rw [hfs1, hp1]
    simp
  obtain ⟨cd2, fs2, hfl2, hfs2, _, _, _, hget2, hout2, _⟩ :=
    flush_reaches_write cd1 fs1 m1 (encode cd1) hv1 hm1 hf1 (encode_ne_null cd1)
  have hmem : ∀ k x, x ∈ cd2.getIDs k ↔ x ∈ cd1.getIDs k := by
    intro k x
    rw [hget2, bucket_encode]
    by_cases hk : k ∈ registered
    · rw [if_pos hk, mem_RemoveDuplicates, List.mem_append, or_self]
    · rw [if_neg hk]
  have hmo : ∀ x, x ∈ cd2.Outdated ↔ x ∈ cd1.Outdated := by
    intro x
    rw [hout2, outdatedIDs_encode, mem_RemoveDuplicates, List.mem_append, or_self]
  refine ⟨cd1, fs1, cd2, fs2, hfl1, hfl2, hmem, hmo, ?_, ?_⟩
  · intro k x
    rw [hfs2, hp1, fileBucket_update_encode, hfs1, fileBucket_update_encode]
    exact hmem k x
  · intro x
    rw [hfs2, hp1, fileOutdated_update_encode, hfs1, fileOutdated_update_encode]
    exact hmo x

/-- C9, at the valid store getCacheFile returns for a cache file that does
not decode (its ids map is nil): the first flush panics on the assignment
into the nil map before anything is written, so two flushes in a row do not
complete; this is so whatever the file at the path of the store holds. -/
theorem flush_twice_panics_on_nil_map :
    ∃ cd, getCacheFile ["/cache"] malformedFile = (some cd, malformedFile) ∧
      cd.Valid = true ∧
      cd.flush malformedFile = .error Fault.nilMapAssign ∧
      flushTwice cd malformedFile = .error Fault.nilMapAssign ∧
      (∀ c : Content, ∃ e, flushTwice cd (oneFile "/cache" c) = .error e) := by
  refine ⟨⟨"/cache", none, [], true⟩, rfl, rfl, rfl, rfl, ?_⟩
  intro c
  cases c <;> exact ⟨_, rfl⟩

/-! ## C10: write-back across two stores -/

/-- What the file holds after two stores on the same path wrote back one
after the other. -/
theorem flushThen_spec (a b : cachedData) (fs : FS) (ma mb : IDMap) (c : Content)
    (hva : a.Valid = true) (hvb : b.Valid = true) (hma : a.IDs = some ma)
    (hmb : b.IDs = some mb) (hp : a.Path = b.Path) (hf : fs a.Path = .file c)
    (hc : c ≠ .null) :
    ∃ fs2, flushThen a b fs = .ok fs2 ∧
      (∀ k ∈ registered, ∀ x,
        x ∈ fileBucket fs2 a.Path k ↔ x ∈ a.getIDs k ∨ x ∈ b.getIDs k ∨ x ∈ c.bucket k) ∧
      (∀ k ∈ registered, (fileBucket fs2 a.Path k).Nodup) ∧
      (∀ x, x ∈ fileOutdated fs2 a.Path ↔
        x ∈ a.Outdated ∨ x ∈ b.Outdated ∨ x ∈ c.outdatedIDs) ∧
      (fileOutdated fs2 a.Path).Nodup ∧
      (∀ k, k ∉ registered → fileBucket fs2 a.Path k = b.getIDs k) := by
  obtain ⟨a1, fs1, hfl1, hfs1, _, _, _, hget1, hout1, _⟩ :=
    flush_reaches_write a fs ma c hva hma hf hc
  have hf1 : fs1 b.Path = .file (encode a1) := by
    rw [hfs1, ← hp]
    simp
  obtain ⟨b2, fs2, hfl2, hfs2, _, _, _, hget2, hout2, _⟩ :=
    flush_reaches_write b fs1 mb (encode a1) hvb hmb hf1 (encode_ne_null a1)
  have hthen : flushThen a b fs = .ok fs2 := by
    simp [flushThen, hfl1, hfl2]
  refine ⟨fs2, hthen, ?_, ?_, ?_, ?_, ?_⟩
  · intro k hk x
    rw [hfs2, hp, fileBucket_update_encode, hget2, if_pos hk, mem_RemoveDuplicates,
      List.mem_append, bucket_encode, hget1, if_pos hk, mem_RemoveDuplicates, List.mem_append]
    tauto
  · intro k hk
    rw [hfs2, hp, fileBucket_update_encode, hget2, if_pos hk]
    exact nodup_RemoveDuplicates _
  · intro x
    rw [hfs2, hp, fileOutdated_update_encode, hout2, mem_RemoveDuplicates, List.mem_append,
      outdatedIDs_encode, hout1, mem_RemoveDuplicates, List.mem_append]
    tauto
  · rw [hfs2, hp, fileOutdated_update_encode, hout2]
    exact nodup_RemoveDuplicates _
  · intro k hk
    rw [hfs2, hp, fileBucket_update_encode, hget2, if_neg hk]

/-- C10, as stated, fails: for a bucket under a name that is not in
drivers.Available (and is not otherKey) the file ends with the bucket of the
store flushed last. One store holds y under pacman, the other holds nothing:
flushing the first then the second leaves no y under pacman in the file,
flushing the second then the first leaves y there. -/
theorem flush_order_matters_unregistered :
    ∃ fsAB fsBA, flushThen pacmanStore emptyStore blankObjectFile = .ok fsAB ∧
      flushThen emptyStore pacmanStore blankObjectFile = .ok fsBA ∧
      "y" ∉ fileBucket fsAB "/cache" "pacman" ∧ "y" ∈ fileBucket fsBA "/cache" "pacman" := by
  refine ⟨_, _, rfl, rfl, ?_, ?_⟩ <;> decide

/-- C10, amended: for two valid stores with allocated maps on the same path,
whose file can be locked and does not hold the JSON value null, flushing the
first then the second and flushing the second then the first both return, and
leave the file with the same identifiers, none of them twice, in every bucket
named in drivers.Available, in the bucket otherKey and in the outdated list:
the union of the identifiers of the two stores and of the file. A bucket
under any other name ends as the bucket of the store flushed last. -/
theorem flush_commutes_registered (a b : cachedData) (fs : FS) (ma mb : IDMap) (c : Content)
    (hva : a.Valid = true) (hvb : b.Valid = true) (hma : a.IDs = some ma)
    (hmb : b.IDs = some mb) (hp : a.Path = b.Path) (hf : fs a.Path = .file c)
    (hc : c ≠ .null) :
    ∃ fsAB fsBA, flushThen a b fs = .ok fsAB ∧ flushThen b a fs = .ok fsBA ∧
      (∀ k ∈ registered, ∀ x,
        (x ∈ fileBucket fsAB a.Path k ↔ x ∈ fileBucket fsBA a.Path k) ∧
        (x ∈ fileBucket fsAB a.Path k ↔
          x ∈ a.getIDs k ∨ x ∈ b.getIDs k ∨ x ∈ fileBucket fs a.Path k)) ∧
      (∀ k ∈ registered,
        (fileBucket fsAB a.Path k).Nodup ∧ (fileBucket fsBA a.Path k).Nodup) ∧
      (∀ x, (x ∈ fileOutdated fsAB a.Path ↔ x ∈ fileOutdated fsBA a.Path) ∧
        (x ∈ fileOutdated fsAB a.Path ↔
          x ∈ a.Outdated ∨ x ∈ b.Outdated ∨ x ∈ fileOutdated fs a.Path)) ∧
      (fileOutdated fsAB a.Path).Nodup ∧ (fileOutdated fsBA a.Path).Nodup ∧
      (∀ k, k ∉ registered →
        fileBucket fsAB a.Path k = b.getIDs k ∧ fileBucket fsBA a.Path k = a.getIDs k) := by
  obtain ⟨fsAB, h1, b1, n1, o1, on1, u1⟩ :=
    flushThen_spec a b fs ma mb c hva hvb hma hmb hp hf hc
  obtain ⟨fsBA, h2, b2, n2, o2, on2, u2⟩ :=
    flushThen_spec b a fs mb ma c hvb hva hmb hma hp.symm (by rw [← hp]; exact hf) hc
  rw [← hp] at b2 n2 o2 on2 u2
  have hb : ∀ k, fileBucket fs a.Path k = c.bucket k := by
    intro k
    simp [fileBucket, hf]
  have ho : fileOutdated fs a.Path = c.outdatedIDs := by
    simp [fileOutdated, hf]
  refine ⟨fsAB, fsBA, h1, h2, ?_, fun k hk => ⟨n1 k hk, n2 k hk⟩, ?_, on1, on2,
    fun k hk => ⟨u1 k hk, u2 k hk⟩⟩
  · intro k hk x
    refine ⟨?_, ?_⟩
    · rw [b1 k hk, b2 k hk]
      tauto
    · rw [b1 k hk, hb]
  · intro x
    refine ⟨?_, ?_⟩
    · rw [o1, o2]
      tauto
    · rw [o1, ho]

/-- C10 at the scenario of the spec: the file holds x under zypper, one store
adds y and the other adds z; in either order the file ends with x, y and z
under zypper, each once. -/
theorem flush_commutes_registered_witness :
    ∃ fsAB fsBA, flushThen xyStore xzStore xFile = .ok fsAB ∧
      flushThen xzStore xyStore xFile = .ok fsBA ∧
      (∀ x, x ∈ fileBucket fsAB "/cache" "zypper" ↔ x ∈ fileBucket fsBA "/cache" "zypper") ∧
      (∀ x, x ∈ fileBucket fsAB "/cache" "zypper" ↔
        x ∈ ["x", "y"] ∨ x ∈ ["x", "z"] ∨ x ∈ ["x"]) ∧
      (fileBucket fsAB "/cache" "zypper").Nodup ∧ (fileBucket fsBA "/cache" "zypper").Nodup := by
  obtain ⟨fsAB, fsBA, h1, h2, hb, hn, _⟩ :=
    flush_commutes_registered xyStore xzStore xFile [("zypper", ["x", "y"])]
      [("zypper", ["x", "z"])] (.object (.value [("zypper", ["x"])]) []) rfl rfl rfl rfl rfl
      (by decide) (by decide)
  have hz : "zypper" ∈ registered := by decide
  exact ⟨fsAB, fsBA, h1, h2, fun x => (hb "zypper" hz x).1, fun x => (hb "zypper" hz x).2,
    (hn "zypper" hz).1, (hn "zypper" hz).2⟩

/-! ## C11: an invalid store is never written -/

/-- C11: for every store with Valid = false and every file system, flush
returns the store as it was and the file system as it was, so the file at its
path keeps its contents. -/
theorem flush_invalid_is_noop (cd : cachedData) (fs : FS) (hv : cd.Valid = false) :
    cd.flush fs = .ok (cd, fs) := by
  unfold cachedData.flush
  rw [hv]
  rfl

/-- C11 at the first flush of TestFlush: the store is invalid and the file
holds dnf = [1]. -/
theorem flush_invalid_is_noop_witness :
    (testFlushStore false).flush testFlushFile = .ok (testFlushStore false, testFlushFile) :=
  flush_invalid_is_noop (testFlushStore false) testFlushFile rfl

/-! ## C12: flushing an empty store -/

/-- C12, at the second flush of TestFlush (a valid store with an empty map
and the file with the buckets dnf = [1], others = [] and zypper = []): the
file did not have the bucket apt, and flush writes a file that has it, since
the merge loop assigns cd.IDs[driver] for every name of drivers.Available;
the file is not left as it was. -/
theorem flush_empty_store_adds_apt_bucket :
    fileKeys testFlushFile "/test/testflush.json" = ["dnf", "others", "zypper"] ∧
    ∃ cd1 fs1, (testFlushStore true).flush testFlushFile = .ok (cd1, fs1) ∧
      fs1 "/test/testflush.json" =
        .file (.object (.value [("apt", []), ("zypper", []), ("dnf", ["1"]), ("others", [])])
          []) ∧
      "apt" ∈ fileKeys fs1 "/test/testflush.json" ∧
      "apt" ∉ fileKeys testFlushFile "/test/testflush.json" := by
  refine ⟨by decide, _, _, rfl, by decide, by decide, by decide⟩

/-! ## C13: the error of updateCacheAfterUpdate -/

/-- C13: when the lookup of the identifier of the outdated image fails,
updateCacheAfterUpdate returns an error and leaves the store and the file
system as they were; whenever it returns, it returns an error exactly when
the lookup failed; and when the lookup succeeds, the map is allocated and the
file does not hold the JSON value null, it returns without an error. -/
theorem updateCacheAfterUpdate_error_iff (getImageID : String → Option String)
    (cd : cachedData) (fs : FS) (outdatedImg updatedImgID backend : String) :
    (getImageID outdatedImg = none →
      cd.updateCacheAfterUpdate getImageID fs outdatedImg updatedImgID backend =
        .ok (true, cd, fs)) ∧
    (∀ err cd1 fs1,
      cd.updateCacheAfterUpdate getImageID fs outdatedImg updatedImgID backend =
        .ok (err, cd1, fs1) →
      (err = true ↔ getImageID outdatedImg = none)) ∧
    (getImageID outdatedImg ≠ none → cd.IDs ≠ none → fs cd.Path ≠ .file .null →
      ∃ cd1 fs1, cd.updateCacheAfterUpdate getImageID fs outdatedImg updatedImgID backend =
        .ok (false, cd1, fs1)) := by
  refine ⟨?_, ?_, ?_⟩
  · intro hg
    simp [cachedData.updateCacheAfterUpdate, hg]
  · intro err cd1 fs1 h
    unfold cachedData.updateCacheAfterUpdate at h
    cases hg : getImageID outdatedImg with
    | none =>
      simp only [hg, Except.ok.injEq, Prod.mk.injEq] at h
      simp [← h.1]
    | some oid =>
      simp only [hg] at h
      cases h1 : cd.recordOutdated fs oid with
      | error e => simp [h1] at h
      | ok p1 =>
        obtain ⟨cd2, fs2⟩ := p1
        simp only [h1] at h
        cases h2 : cd2.recordUpdated fs2 updatedImgID backend with
        | error e => simp [h2] at h
        | ok p2 =>
          obtain ⟨cd3, fs3⟩ := p2
          simp only [h2, Except.ok.injEq, Prod.mk.injEq] at h
          simp [← h.1]
  · intro hg hm hf
    obtain ⟨oid, hg2⟩ := Option.ne_none_iff_exists'.mp hg
    obtain ⟨cd2, fs2, h1⟩ := recordOutdated_returns cd fs oid hm hf
    obtain ⟨p, hm2, hf2, _⟩ := recordOutdated_frame cd fs oid cd2 fs2 h1
    obtain ⟨cd3, fs3, h2⟩ :=
      recordUpdated_returns cd2 fs2 updatedImgID backend (hm2 hm) (by rw [p]; exact hf2 hf)
    refine ⟨cd3, fs3, ?_⟩
    simp [cachedData.updateCacheAfterUpdate, hg2, h1, h2]

/-- C13 at the test on an image that is already known: the lookup finds no
image, an error is returned and the store and the file are as before. -/
theorem updateCacheAfterUpdate_error_iff_witness :
    knownImageStore.updateCacheAfterUpdate (fun _ => none) testFlushFile
      "opensuse:13.2" "2" "zypper" = .ok (true, knownImageStore, testFlushFile) :=
  (updateCacheAfterUpdate_error_iff (fun _ => none) knownImageStore testFlushFile
    "opensuse:13.2" "2" "zypper").1 rfl

/-! ## C14: reset -/

/-- C14, at a valid store that holds a and c under zypper and a file that
holds a under zypper and b in the outdated list: reset clears the store and
then flushes, and the merge of flush reads the file back, so that afterwards
the file and the store still hold a under zypper and b in the outdated list;
only c, which was in memory alone, is gone. -/
theorem reset_keeps_disk_history :
    ∃ cd1 fs1, scenarioStore.reset historyFile = .ok (cd1, fs1) ∧
      fs1 "/cache" = .file (encode cd1) ∧
      fileBucket fs1 "/cache" "zypper" = ["a"] ∧ fileOutdated fs1 "/cache" = ["b"] ∧
      cd1.getIDs "zypper" = ["a"] ∧ cd1.Outdated = ["b"] := by
  refine ⟨_, _, rfl, rfl, rfl, rfl, rfl, rfl⟩

end Backend
